import Mathlib

/-!
Shallow embedding of the `mlops-supabase-university-offers` ingestion pipeline
(`src/etl/ingest.py`, `src/geo/matching.py`, `src/dq/checks.py`,
`src/storage/supabase_storage.py`) together with theorems settling the
specification claims about it.

Strings are modelled by Lean `String` (a list of unicode scalar values), data
frames by lists of row structures, and the database by explicit state passed
in and out of each operation.  Machine-level details that no claim touches
(timestamps, SQL sessions) are either omitted or abstracted into parameters,
as noted at each definition.
-/

namespace Uni

/-- Python `str.isspace` / the separator set of `str.split()` restricted to
ASCII (all inputs where it matters in this development have already been
folded to ASCII): space, `\t`, `\n`, `\v`, `\f`, `\r` and the file/group/
record/unit separators `\x1c`-`\x1f`. -/
def pyIsSpace (c : Char) : Bool :=
  c.toNat = 32 || (9 ≤ c.toNat && c.toNat ≤ 13) || (28 ≤ c.toNat && c.toNat ≤ 31)

/-- Decomposition table for the non-ASCII characters that occur in this data
set: the composite of `unicodedata.normalize('NFKD', ·)` followed by
`.encode('ASCII', 'ignore')` maps each accented Latin letter to its base
ASCII letter. -/
def accentTable : List (Char × Char) :=
  [('á', 'a'), ('é', 'e'), ('í', 'i'), ('ó', 'o'), ('ú', 'u'), ('ü', 'u'), ('ñ', 'n'),
   ('Á', 'A'), ('É', 'E'), ('Í', 'I'), ('Ó', 'O'), ('Ú', 'U'), ('Ü', 'U'), ('Ñ', 'N'),
   ('à', 'a'), ('è', 'e'), ('ì', 'i'), ('ò', 'o'), ('ù', 'u'),
   ('À', 'A'), ('È', 'E'), ('Ì', 'I'), ('Ò', 'O'), ('Ù', 'U'),
   ('ä', 'a'), ('ë', 'e'), ('ï', 'i'), ('ö', 'o'),
   ('Ä', 'A'), ('Ë', 'E'), ('Ï', 'I'), ('Ö', 'O'),
   ('â', 'a'), ('ê', 'e'), ('î', 'i'), ('ô', 'o'), ('û', 'u'),
   ('Â', 'A'), ('Ê', 'E'), ('Î', 'I'), ('Ô', 'O'), ('Û', 'U'),
   ('ç', 'c'), ('Ç', 'C')]

/-- One character of `unicodedata.normalize('NFKD', s).encode('ASCII',
'ignore')`: ASCII characters are kept, accented Latin letters decompose to
their base letter (the combining mark being dropped by the ASCII encode), and
any other non-ASCII character is dropped. -/
def asciiFoldChar (c : Char) : List Char :=
  if c.toNat < 128 then [c]
  else
    match accentTable.find? (fun p => p.1 = c) with
    | some p => [p.2]
    | none => []

/-- `unicodedata.normalize('NFKD', s).encode('ASCII', 'ignore').decode('utf-8')`. -/
def asciiFold (s : String) : String :=
  String.mk (s.data.map asciiFoldChar).flatten

/-- Python `str.lower()` on a single character; faithful for the ASCII
strings this development applies it to (it is only ever called after
`asciiFold`). -/
def pyLowerChar (c : Char) : Char :=
  if 65 ≤ c.toNat ∧ c.toNat ≤ 90 then Char.ofNat (c.toNat + 32) else c

/-- Python `str.upper()` on a single character; faithful for ASCII strings. -/
def pyUpperChar (c : Char) : Char :=
  if 97 ≤ c.toNat ∧ c.toNat ≤ 122 then Char.ofNat (c.toNat - 32) else c

/-- Python `str.strip()` (no argument): remove leading and trailing
whitespace. -/
def pyStrip (l : List Char) : List Char :=
  ((l.dropWhile pyIsSpace).reverse.dropWhile pyIsSpace).reverse

/-- Python `str.split()` (no argument): the maximal runs of non-whitespace
characters, in order; leading/trailing/repeated separators produce no empty
pieces. -/
def splitWs : List Char → List (List Char)
  | [] => []
  | c :: cs =>
    if pyIsSpace c then splitWs cs
    else (c :: cs.takeWhile (fun d => !pyIsSpace d)) ::
      splitWs (cs.dropWhile (fun d => !pyIsSpace d))
termination_by l => l.length
decreasing_by
  · simp only [List.length_cons]; omega
  · have := (List.dropWhile_sublist (l := cs) (fun d => !pyIsSpace d)).length_le
    simp only [List.length_cons]; omega

/-- The space character U+0020. -/
def spaceChar : Char := Char.ofNat 32

/-- Python `str.join` with a single-space separator. -/
def joinSp : List (List Char) → List Char
  | [] => []
  | [w] => w
  | w :: ws => w ++ spaceChar :: joinSp ws

end Uni

namespace Geo

open Uni

/-- `GeoMatcher.normalize_text` (src/geo/matching.py lines 19-28): NFKD-fold
to ASCII, lowercase, strip, collapse internal whitespace runs to single
spaces.  The non-string input branch (returning `""`) is handled by callers
in this embedding, which feed only strings. -/
def normalize_text (s : String) : String :=
  let folded := asciiFold s
  let lowered := String.mk (folded.data.map pyLowerChar)
  let stripped := String.mk (pyStrip lowered.data)
  String.mk (joinSp (splitWs stripped.data))

/-- Length of a longest common subsequence, the combinatorial core of the
`rapidfuzz` Indel distance underlying `fuzz.ratio`
(`dist = |a| + |b| - 2 * lcs`). -/
def lcs : List Char → List Char → Nat
  | [], _ => 0
  | _ :: _, [] => 0
  | a :: as, b :: bs =>
    if a = b then lcs as bs + 1
    else max (lcs (a :: as) bs) (lcs as (b :: bs))
termination_by l r => l.length + r.length
decreasing_by all_goals simp only [List.length_cons]; omega

/-- `rapidfuzz.fuzz.ratio(a, b)`: the normalized Indel similarity scaled to
0-100, i.e. `100 * (1 - dist / (|a| + |b|))` with
`dist = |a| + |b| - 2 * lcs(a, b)`, and 100 when both strings are empty.
Scores are modelled as rationals (the library returns floats on the same
0-100 scale). -/
def fuzzScore (a b : String) : ℚ :=
  if a.length + b.length = 0 then 100
  else 100 * (2 * (lcs a.data b.data : ℚ)) / (a.length + b.length)

/-- `rapidfuzz.process.extractOne(query, choices, scorer=fuzz.ratio)`:
the first choice attaining the maximal score (a later choice replaces the
incumbent only on a strictly greater score), or `none` for an empty choice
list. -/
def extractOne (query : String) (choices : List String) : Option (String × ℚ) :=
  choices.foldl
    (fun best c =>
      match best with
      | none => some (c, fuzzScore query c)
      | some (b, bs) => if fuzzScore query c > bs then some (c, fuzzScore query c) else some (b, bs))
    none

/-- The data a loaded `GeoMatcher` carries (src/geo/matching.py lines 9-62):
whether `load_catalog` populated `self.catalog`, the canonical province
list, the province-to-cantons map (a Python dict, modelled as an association
list) and the set of valid (province, canton) pairs. -/
structure GeoMatcher where
  hasCatalog : Bool
  provinces : List String
  cantons_by_prov : List (String × List String)
  valid_pairs : List (String × String)

/-- `self.cantons_by_prov.get(p, [])`. -/
def GeoMatcher.cantonsOf (m : GeoMatcher) (p : String) : List String :=
  match m.cantons_by_prov.find? (fun e => e.1 = p) with
  | some e => e.2
  | none => []

/-- The result tuple of `match_territory`:
`(provincia_norm, canton_norm, score_prov, score_canton, method)`. -/
structure MatchResult where
  provincia : Option String
  canton : Option String
  score_prov : ℚ
  score_canton : ℚ
  method : String
deriving Repr, DecidableEq

/-- `GeoMatcher.match_territory` (src/geo/matching.py lines 64-108):
normalize both inputs; resolve the province exactly against the canonical
list, else by best fuzzy score against it (accept at `score >= threshold`);
then resolve the canton the same way against the resolved province's scoped
canton list; label the method `exact` only when both scores are 100. -/
def GeoMatcher.match_territory (m : GeoMatcher) (provincia_input canton_input : String)
    (threshold : ℚ := 85) : MatchResult :=
  if !m.hasCatalog then ⟨none, none, 0, 0, "no_catalog"⟩
  else
    let prov_norm_input := normalize_text provincia_input
    let canton_norm_input := normalize_text canton_input
    let provStep : Option (String × ℚ) :=
      if prov_norm_input ∈ m.provinces then some (prov_norm_input, 100)
      else
        match extractOne prov_norm_input m.provinces with
        | some (best, score) => if score ≥ threshold then some (best, score) else none
        | none => none
    match provStep with
    | none => ⟨none, none, 0, 0, "failed_prov"⟩
    | some (matched_prov, prov_score) =>
      let valid_cantons := m.cantonsOf matched_prov
      let cantonStep : Option (String × ℚ) :=
        if canton_norm_input ∈ valid_cantons then some (canton_norm_input, 100)
        else
          match extractOne canton_norm_input valid_cantons with
          | some (best, score) => if score ≥ threshold then some (best, score) else none
          | none => none
      match cantonStep with
      | none => ⟨some matched_prov, none, prov_score, 0, "failed_canton"⟩
      | some (matched_canton, canton_score) =>
        ⟨some matched_prov, some matched_canton, prov_score, canton_score,
          if prov_score = 100 ∧ canton_score = 100 then "exact" else "fuzzy"⟩

/-- `GeoMatcher.is_valid_pair` (src/geo/matching.py lines 110-113). -/
def GeoMatcher.is_valid_pair (m : GeoMatcher) (provincia_norm canton_norm : String) : Bool :=
  if provincia_norm = "" || canton_norm = "" then false
  else m.valid_pairs.contains (provincia_norm, canton_norm)

end Geo

namespace Sha256

/-- Truncation to a 32-bit word. -/
def w32 (n : Nat) : Nat := n % 4294967296

/-- 32-bit right rotation. -/
def rotr (k x : Nat) : Nat := w32 ((x >>> k) ||| (x <<< (32 - k)))

/-- The 64 SHA-256 round constants (fractional parts of the cube roots of
the first 64 primes), written in decimal. -/
def K : List Nat :=
  [1116352408, 1899447441, 3049323471, 3921009573, 961987163,
   1508970993, 2453635748, 2870763221, 3624381080, 310598401,
   607225278, 1426881987, 1925078388, 2162078206, 2614888103,
   3248222580, 3835390401, 4022224774, 264347078, 604807628,
   770255983, 1249150122, 1555081692, 1996064986, 2554220882,
   2821834349, 2952996808, 3210313671, 3336571891, 3584528711,
   113926993, 338241895, 666307205, 773529912, 1294757372,
   1396182291, 1695183700, 1986661051, 2177026350, 2456956037,
   2730485921, 2820302411, 3259730800, 3345764771, 3516065817,
   3600352804, 4094571909, 275423344, 430227734, 506948616,
   659060556, 883997877, 958139571, 1322822218, 1537002063,
   1747873779, 1955562222, 2024104815, 2227730452, 2361852424,
   2428436474, 2756734187, 3204031479, 3329325298]

/-- Initial hash state (fractional parts of the square roots of the first
8 primes), written in decimal. -/
def H0 : List Nat :=
  [1779033703, 3144134277, 1013904242, 2773480762, 1359893119,
   2600822924, 528734635, 1541459225]

/-- UTF-8 encoding of one unicode scalar value. -/
def utf8Bytes (c : Char) : List Nat :=
  let n := c.toNat
  if n < 128 then [n]
  else if n < 2048 then [192 + n / 64, 128 + n % 64]
  else if n < 65536 then [224 + n / 4096, 128 + (n / 64) % 64, 128 + n % 64]
  else [240 + n / 262144, 128 + (n / 4096) % 64, 128 + (n / 64) % 64, 128 + n % 64]

/-- `s.encode('utf-8')` as a byte list. -/
def strBytes (s : String) : List Nat :=
  (s.data.map utf8Bytes).flatten

/-- SHA-256 message padding: append `0x80`, zero bytes to reach 56 mod 64,
then the bit length as an 8-byte big-endian integer. -/
def padMessage (msg : List Nat) : List Nat :=
  let len := msg.length
  let zeros := (119 - len % 64) % 64
  let bitLen := len * 8
  msg ++ [128] ++ List.replicate zeros 0 ++
    ((List.range 8).map fun i => (bitLen >>> (8 * (7 - i))) % 256)

/-- Split a byte list into 64-byte blocks. -/
def blocks (l : List Nat) : List (List Nat) :=
  if l.isEmpty then [] else l.take 64 :: blocks (l.drop 64)
termination_by l.length
decreasing_by
  rename_i h
  have hne : l ≠ [] := by simpa using h
  have : 0 < l.length := List.length_pos.mpr hne
  simp only [List.length_drop]; omega

/-- Pack bytes into big-endian 32-bit words. -/
def bytesToWords : List Nat → List Nat
  | b0 :: b1 :: b2 :: b3 :: rest =>
    (b0 * 16777216 + b1 * 65536 + b2 * 256 + b3) :: bytesToWords rest
  | _ => []

/-- Extend the 16 block words to the 64-entry message schedule
(`n` remaining extension steps). -/
def extendSchedule : Nat → List Nat → List Nat
  | 0, w => w
  | n + 1, w =>
    let i := w.length
    let s0 :=
      (rotr 7 (w.getD (i - 15) 0)) ^^^ (rotr 18 (w.getD (i - 15) 0)) ^^^ ((w.getD (i - 15) 0) >>> 3)
    let s1 :=
      (rotr 17 (w.getD (i - 2) 0)) ^^^ (rotr 19 (w.getD (i - 2) 0)) ^^^ ((w.getD (i - 2) 0) >>> 10)
    extendSchedule n (w ++ [w32 (w.getD (i - 16) 0 + s0 + w.getD (i - 7) 0 + s1)])

/-- The eight working variables of the compression loop. -/
structure Regs where
  a : Nat
  b : Nat
  c : Nat
  d : Nat
  e : Nat
  f : Nat
  g : Nat
  h : Nat

/-- One round of the SHA-256 compression function. -/
def round (r : Regs) (kw : Nat × Nat) : Regs :=
  let S1 := (rotr 6 r.e) ^^^ (rotr 11 r.e) ^^^ (rotr 25 r.e)
  let ch := (r.e &&& r.f) ^^^ ((r.e ^^^ 4294967295) &&& r.g)
  let temp1 := w32 (r.h + S1 + ch + kw.1 + kw.2)
  let S0 := (rotr 2 r.a) ^^^ (rotr 13 r.a) ^^^ (rotr 22 r.a)
  let maj := (r.a &&& r.b) ^^^ (r.a &&& r.c) ^^^ (r.b &&& r.c)
  let temp2 := w32 (S0 + maj)
  ⟨w32 (temp1 + temp2), r.a, r.b, r.c, w32 (r.d + temp1), r.e, r.f, r.g⟩

/-- Compress one 64-byte block into the running hash state. -/
def compress (h : List Nat) (block : List Nat) : List Nat :=
  let w := extendSchedule 48 (bytesToWords block)
  let init : Regs :=
    ⟨h.getD 0 0, h.getD 1 0, h.getD 2 0, h.getD 3 0, h.getD 4 0, h.getD 5 0, h.getD 6 0, h.getD 7 0⟩
  let r := (K.zip w |>.map fun p => (p.1, p.2)).foldl (fun r p => round r (p.2, p.1)) init
  [w32 (h.getD 0 0 + r.a), w32 (h.getD 1 0 + r.b), w32 (h.getD 2 0 + r.c), w32 (h.getD 3 0 + r.d),
   w32 (h.getD 4 0 + r.e), w32 (h.getD 5 0 + r.f), w32 (h.getD 6 0 + r.g), w32 (h.getD 7 0 + r.h)]

/-- One lowercase hexadecimal digit. -/
def hexDigit (d : Nat) : Char :=
  if d < 10 then Char.ofNat (48 + d) else Char.ofNat (87 + d)

/-- A natural number as `width` lowercase hex digits (big-endian). -/
def toHex (width n : Nat) : List Char :=
  (List.range width).map fun i => hexDigit ((n >>> (4 * (width - 1 - i))) % 16)

/-- `hashlib.sha256(data).hexdigest()` for a byte list. -/
def sha256Hex (msg : List Nat) : String :=
  let final := (blocks (padMessage msg)).foldl compress H0
  String.mk (final.map (toHex 8)).flatten

end Sha256

namespace Ingest

/-- Python's 4-hex-digit `\u` escape payload. -/
def uEscape (n : Nat) : List Char :=
  '\\' :: 'u' :: Sha256.toHex 4 n

/-- `json.dumps` escaping of one character with the default
`ensure_ascii=True`: `"` and `\` are backslash-escaped, the named control
escapes are used for backspace/tab/newline/formfeed/return, other control
characters and all non-ASCII characters become `\uXXXX` escapes (a surrogate
pair beyond the BMP). -/
def jsonEscapeChar (c : Char) : List Char :=
  if c = '"' then ['\\', '"']
  else if c = '\\' then ['\\', '\\']
  else if c.toNat = 8 then ['\\', 'b']
  else if c = '\t' then ['\\', 't']
  else if c = '\n' then ['\\', 'n']
  else if c.toNat = 12 then ['\\', 'f']
  else if c = '\r' then ['\\', 'r']
  else if c.toNat < 32 then uEscape c.toNat
  else if c.toNat ≤ 127 then [c]
  else if c.toNat < 65536 then uEscape c.toNat
  else
    uEscape (55296 + (c.toNat - 65536) / 1024) ++ uEscape (56320 + (c.toNat - 65536) % 1024)

/-- A `json.dumps` string literal. -/
def jsonStringLit (s : String) : String :=
  String.mk ('"' :: (s.data.map jsonEscapeChar).flatten ++ ['"'])

/-- `json.dumps(content, sort_keys=True)` for the two-key dict built in
`generate_row_hash`: keys in sorted order (`"estado_norm" < "natural_key"`),
with the default `', '` and `': '` separators. -/
def rowHashJson (natural_key estado_norm : String) : String :=
  "\x7b" ++ jsonStringLit "estado_norm" ++ ": " ++ jsonStringLit estado_norm ++
    ", " ++ jsonStringLit "natural_key" ++ ": " ++ jsonStringLit natural_key ++ "\x7d"

/-- Python `x or ''` on an optional string: `None` and `''` both yield `''`. -/
def orEmpty : Option String → String
  | none => ""
  | some s => s

/-- One normalized dataframe row at the point where keys and hashes are
generated (src/etl/ingest.py lines 324-347): the normalized fields are
`None` for missing source values, and the raw source fields ride along. -/
structure StgRow where
  nombre_norm : Option String
  carrera_norm : Option String
  estado_norm : Option String
  campo_amplio_norm : Option String
  nivel_formacion_norm : Option String
  modalidad_norm : Option String
  provincia_norm : Option String
  canton_norm : Option String
  ESTADO : Option String
deriving Repr, DecidableEq

/-- `safe_key_part` (src/etl/ingest.py lines 98-103): `None` (and NaN)
render as the empty string, other values as their stripped string form. -/
def safe_key_part : Option String → String
  | none => ""
  | some s => String.mk (Uni.pyStrip s.data)

/-- `generate_natural_key` (src/etl/ingest.py lines 106-117): deterministic
pipe-joined concatenation of the normalized fields in fixed order. -/
def generate_natural_key (r : StgRow) : String :=
  String.intercalate "|"
    [safe_key_part r.nombre_norm, safe_key_part r.carrera_norm,
     safe_key_part r.campo_amplio_norm, safe_key_part r.nivel_formacion_norm,
     safe_key_part r.modalidad_norm, safe_key_part r.provincia_norm,
     safe_key_part r.canton_norm]

/-- `generate_row_hash` (src/etl/ingest.py lines 120-127): the SHA-256 hex
digest of the sorted-keys JSON serialization of
`{'natural_key': row['natural_key'], 'estado_norm': row.get('estado_norm') or ''}`.
The row's `natural_key` column was just computed by `generate_natural_key`. -/
def generate_row_hash (r : StgRow) : String :=
  Sha256.sha256Hex (Sha256.strBytes (rowHashJson (generate_natural_key r) (orEmpty r.estado_norm)))

/-- One `core.fact_offer` row, restricted to the columns the SCD logic reads
or writes (timestamp columns are omitted: no claim mentions them). -/
structure FactRow where
  ies_id : Nat
  territory_id : Nat
  program_id : Nat
  estado_original : Option String
  estado_norm : Option String
  natural_key : String
  row_hash : String
  last_file_id : Option String
  is_current : Bool
deriving Repr, DecidableEq

/-- One row of the incoming batch as seen by the SCD loop
(src/etl/ingest.py lines 486-498): its keys plus the normalized fields used
to resolve the three dimension ids. -/
structure BatchRow where
  natural_key : String
  row_hash : String
  nombre_norm : Option String
  carrera_norm : Option String
  campo_amplio_norm : Option String
  nivel_formacion_norm : Option String
  modalidad_norm : Option String
  provincia_norm : Option String
  canton_norm : Option String
  ESTADO : Option String
  estado_norm : Option String
deriving Repr, DecidableEq

/-- The dimension lookup dicts built from `core.dim_ies`,
`core.dim_territory` and `core.dim_program` before the SCD loop
(src/etl/ingest.py lines 474-478).  Keys may contain `None` components,
exactly as the Python dict keys may. -/
structure DimLookups where
  ies : Option String → Option Nat
  territory : Option String × Option String → Option Nat
  program : Option String × Option String × Option String × Option String → Option Nat

/-- Python truthiness of an optional integer id
(`ies_id and terr_id and prog_id`): `None` and `0` are falsy. -/
def pyTruthyId : Option Nat → Bool
  | none => false
  | some n => n ≠ 0

/-- Are all three dimension ids resolved for a batch row
(the negation of the `skipped_missing_dims` guard)? -/
def dimsResolved (L : DimLookups) (r : BatchRow) : Bool :=
  pyTruthyId (L.ies r.nombre_norm) &&
  pyTruthyId (L.territory (r.provincia_norm, r.canton_norm)) &&
  pyTruthyId (L.program (r.carrera_norm, r.campo_amplio_norm, r.nivel_formacion_norm,
    r.modalidad_norm))

/-- `existing_map` (src/etl/ingest.py lines 468-471): the dict
`{r.natural_key: r.row_hash for r in current rows}`; when several current
rows share a key the last fetched wins, as in a Python dict comprehension. -/
def currentHashMap (st : List FactRow) (nk : String) : Option String :=
  ((st.filter fun r => r.is_current).reverse.find? fun r => r.natural_key = nk).map
    (fun r => r.row_hash)

/-- `df.drop_duplicates(subset=['natural_key'], keep='last')`: keep, in
order, each row that has no later row with the same natural key. -/
def keepLast : List BatchRow → List BatchRow
  | [] => []
  | r :: rs =>
    if rs.any fun s => s.natural_key = r.natural_key then keepLast rs
    else r :: keepLast rs

/-- The `UPDATE ... SET is_current = FALSE, last_file_id = :fid WHERE
natural_key = :nk AND is_current = TRUE` statement. -/
def expireCurrent (fid nk : String) (st : List FactRow) : List FactRow :=
  st.map fun r =>
    if r.natural_key = nk ∧ r.is_current then { r with is_current := false, last_file_id := some fid }
    else r

/-- The `UPDATE ... SET last_file_id = :fid WHERE natural_key = :nk AND
is_current = TRUE` statement of the unchanged branch. -/
def touchCurrent (fid nk : String) (st : List FactRow) : List FactRow :=
  st.map fun r =>
    if r.natural_key = nk ∧ r.is_current then { r with last_file_id := some fid }
    else r

/-- The `INSERT INTO core.fact_offer ... is_current = TRUE` statement. -/
def newFactRow (L : DimLookups) (fid : String) (r : BatchRow) : FactRow :=
  { ies_id := (L.ies r.nombre_norm).getD 0,
    territory_id := (L.territory (r.provincia_norm, r.canton_norm)).getD 0,
    program_id := (L.program (r.carrera_norm, r.campo_amplio_norm, r.nivel_formacion_norm,
      r.modalidad_norm)).getD 0,
    estado_original := r.ESTADO,
    estado_norm := r.estado_norm,
    natural_key := r.natural_key,
    row_hash := r.row_hash,
    last_file_id := some fid,
    is_current := true }

/-- The four SCD counters. -/
structure ScdCounts where
  new : Nat
  updated : Nat
  unchanged : Nat
  skipped_missing_dims : Nat
deriving Repr, DecidableEq

/-- The body of the per-row SCD loop (src/etl/ingest.py lines 486-544):
skip when a dimension id is unresolved; otherwise insert (new key),
expire-then-insert (hash changed) or touch (hash unchanged), comparing
against `existing_map` computed once before the loop. -/
def scdProcessRow (L : DimLookups) (fid : String) (existingMap : String → Option String)
    (acc : List FactRow × ScdCounts) (r : BatchRow) : List FactRow × ScdCounts :=
  let (st, c) := acc
  if !dimsResolved L r then
    (st, { c with skipped_missing_dims := c.skipped_missing_dims + 1 })
  else
    match existingMap r.natural_key with
    | some rh =>
      if rh ≠ r.row_hash then
        (expireCurrent fid r.natural_key st ++ [newFactRow L fid r],
         { c with updated := c.updated + 1 })
      else
        (touchCurrent fid r.natural_key st, { c with unchanged := c.unchanged + 1 })
    | none =>
      (st ++ [newFactRow L fid r], { c with new := c.new + 1 })

/-- The SCD Type-2 maintenance step of `run_pipeline`
(src/etl/ingest.py lines 466-558): dedupe the batch keeping the last
occurrence per natural key, then run the per-key state machine over the
fact-table state, producing the new state and the counters. -/
def scd_fact_step (L : DimLookups) (fid : String) (st : List FactRow)
    (batch : List BatchRow) : List FactRow × ScdCounts :=
  (keepLast batch).foldl (scdProcessRow L fid (currentHashMap st)) (st, ⟨0, 0, 0, 0⟩)

/-- The number of current fact rows carrying a given natural key. -/
def currentCount (st : List FactRow) (nk : String) : Nat :=
  st.countP fun r => r.is_current && r.natural_key == nk

/-- The SCD current-row invariant (spec §3): at most one `is_current` row
per natural key. -/
def atMostOneCurrent (st : List FactRow) : Prop :=
  ∀ nk : String, currentCount st nk ≤ 1

/-- The sum of the four SCD counters. -/
def ScdCounts.total (c : ScdCounts) : Nat :=
  c.new + c.updated + c.unchanged + c.skipped_missing_dims

/-- One `raw_ingest.files` record, restricted to the columns
`should_skip_by_checksum` touches. -/
structure FileRec where
  file_id : String
  checksum_sha256 : String
  status : String
  notes : Option String
deriving Repr, DecidableEq

/-- `should_skip_by_checksum` (src/etl/ingest.py lines 208-225): fetch the
record with this checksum; no record or a non-`success` record means
proceed with no write; a `success` record means skip, returning its
`file_id` after stamping a duplicate-checksum note on it.  `now` stands for
`datetime.utcnow().isoformat()`; the function returns
`((skip, file_id), updated table)`. -/
def should_skip_by_checksum (db : List FileRec) (checksum : String) (now : String) :
    (Bool × Option String) × List FileRec :=
  match db.find? fun r => r.checksum_sha256 = checksum with
  | none => ((false, none), db)
  | some r =>
    if r.status = "success" then
      let note := "Duplicate checksum skipped at " ++ now ++ "Z"
      ((true, some r.file_id),
       db.map fun x => if x.file_id = r.file_id then { x with notes := some note } else x)
    else ((false, none), db)

end Ingest

namespace DQ

/-- One normalized dataframe row as seen by `DataQualityChecker.run_checks`
(src/dq/checks.py lines 21-106): normalized values are `None` when missing. -/
structure DqRow where
  natural_key : String
  row_hash : String
  provincia_norm : Option String
  canton_norm : Option String
  estado_norm : Option String
  PROVINCIA : Option String
  CANTON : Option String
  NOMBRE_IES : Option String
  NOMBRE_CARRERA : Option String
deriving Repr, DecidableEq

/-- One audit issue: its type and the offending natural key (the detail
payload is not modelled; no claim mentions it). -/
structure DqIssue where
  issue_type : String
  natural_key : String
deriving Repr, DecidableEq

/-- The structural geo-failure mask of check 2 (src/dq/checks.py lines
47-50): `provincia_norm` or `canton_norm` missing or empty. -/
def invalidGeoMask (r : DqRow) : Bool :=
  r.provincia_norm.isNone || r.provincia_norm == some "" ||
  r.canton_norm.isNone || r.canton_norm == some ""

/-- `pair not in self.valid_pairs` for the row's
`(provincia_norm, canton_norm)` zip entry; a pair with a `None` component is
never a member of the valid set. -/
def pairNotValid (vp : List (String × String)) (r : DqRow) : Bool :=
  match r.provincia_norm, r.canton_norm with
  | some p, some c => !vp.contains (p, c)
  | _, _ => true

/-- The rows flagged by check 1 (`df.duplicated(subset=['natural_key'],
keep=False)`): every row whose natural key occurs more than once. -/
def duplicateRows (df : List DqRow) : List DqRow :=
  df.filter fun r => 2 ≤ df.countP fun s => s.natural_key == r.natural_key

/-- The rows flagged by the structural check (`missing_territory_norm`). -/
def missingTerritoryRows (df : List DqRow) : List DqRow :=
  df.filter invalidGeoMask

/-- The rows flagged by the catalog check (`invalid_territory_pair`,
src/dq/checks.py lines 60-76): only run with a non-empty valid-pair set, and
filtered by `invalid_pair_mask & ~invalid_geo_mask`. -/
def invalidPairRows (vp : List (String × String)) (df : List DqRow) : List DqRow :=
  if vp.isEmpty then []
  else df.filter fun r => pairNotValid vp r && !invalidGeoMask r

/-- The natural keys flagged by check 2b (`conflicting_estado`): more than
one distinct non-null `estado_norm` in the group of the key. -/
def conflictingKeys (df : List DqRow) : List String :=
  (df.map fun r => r.natural_key).dedup.filter fun nk =>
    1 < (((df.filter fun r => r.natural_key == nk).filterMap fun r => r.estado_norm).dedup).length

/-- `DataQualityChecker.run_checks` issue list (src/dq/checks.py lines
21-103), in emission order.  (`save_results` persistence is outside the
model; the metrics map mirrors the issue counts and is captured by the
lengths of these lists.) -/
def run_checks_issues (vp : List (String × String)) (df : List DqRow) : List DqIssue :=
  ((duplicateRows df).map fun r => ⟨"duplicate_natural_key", r.natural_key⟩) ++
  ((missingTerritoryRows df).map fun r => ⟨"missing_territory_norm", r.natural_key⟩) ++
  ((invalidPairRows vp df).map fun r => ⟨"invalid_territory_pair", r.natural_key⟩) ++
  ((conflictingKeys df).map fun nk => ⟨"conflicting_estado", nk⟩) ++
  ((df.filter fun r => r.NOMBRE_IES.isNone).map fun r => ⟨"missing_nombre_ies", r.natural_key⟩) ++
  ((df.filter fun r => r.NOMBRE_CARRERA.isNone).map fun r =>
    ⟨"missing_nombre_carrera", r.natural_key⟩)

end DQ

namespace Storage

/-- The environment and remote-service behaviour `supabase_storage.py`
interacts with: whether the `supabase` package imported, the process
environment, and the outcome of each storage call (`none` /
`True` modelling a raised exception where noted). -/
structure World where
  createClientAvailable : Bool
  env : String → Option String
  listBucketsResult : Option (List String)
  createBucketFails : Bool
  sourceExists : Bool
  reportExists : String → Bool
  uploadFails : String → Bool

/-- Python truthiness of `os.getenv(...)`: unset and empty are falsy. -/
def pyTruthyEnv : Option String → Bool
  | none => false
  | some s => s ≠ ""

/-- `_bool_env` (src/storage/supabase_storage.py lines 15-18). -/
def boolEnv : Option String → Bool
  | none => false
  | some s => if s = "" then false else ["1", "true", "yes"].contains s.toLower

/-- `get_supabase_client` (src/storage/supabase_storage.py lines 25-36):
`None` when the client library is missing or either of `SUPABASE_URL` /
`SUPABASE_SERVICE_ROLE_KEY` is unset or empty; otherwise a client for the
slash-terminated url.  The client is modelled by its `(url, key)` pair. -/
def get_supabase_client (w : World) : Option (String × String) :=
  if !w.createClientAvailable then none
  else
    let url := w.env "SUPABASE_URL"
    let key := w.env "SUPABASE_SERVICE_ROLE_KEY"
    if !pyTruthyEnv url || !pyTruthyEnv key then none
    else
      let u := url.getD ""
      some ((if u.endsWith "/" then u else u ++ "/"), key.getD "")

/-- The storage calls `upload_artifacts` can issue against the remote
service; the trace of these is the observable effect of a run. -/
inductive StorageOp
  | listBuckets
  | createBucket (bucket : String)
  | upload (bucket : String) (remote : String)
deriving Repr, DecidableEq

/-- Result info of one `upload_file` call. -/
structure UploadInfo where
  path : String
  url : Option String
deriving Repr, DecidableEq

/-- `_public_url` (src/storage/supabase_storage.py lines 55-56). -/
def publicUrl (base bucket objectPath : String) : String :=
  base ++ "/storage/v1/object/public/" ++ bucket ++ "/" ++ objectPath

/-- Python `str.rstrip('/')`. -/
def rstripSlash (s : String) : String :=
  String.mk (s.data.reverse.dropWhile (fun c => c = '/')).reverse

/-- The info dict built by `upload_file` (src/storage/supabase_storage.py
lines 59-72) after a successful upload. -/
def uploadInfo (w : World) (bucket remote : String) (publicFlag : Bool) : UploadInfo :=
  if publicFlag then
    let base := rstripSlash
      (match w.env "SUPABASE_PUBLIC_URL" with
       | some s => if s ≠ "" then s else (w.env "SUPABASE_URL").getD ""
       | none => (w.env "SUPABASE_URL").getD "")
    if base ≠ "" then ⟨remote, some (publicUrl base bucket remote)⟩ else ⟨remote, none⟩
  else ⟨remote, none⟩

/-- `ensure_bucket` (src/storage/supabase_storage.py lines 39-52) for a
non-`None` client: `none` in the first component models a raised exception;
the second component is the trace of storage calls. -/
def ensure_bucket (w : World) (bucket : String) : Option Bool × List StorageOp :=
  match w.listBucketsResult with
  | none => (none, [.listBuckets])
  | some names =>
    if names.contains bucket then (some true, [.listBuckets])
    else if w.createBucketFails then (none, [.listBuckets, .createBucket bucket])
    else (some true, [.listBuckets, .createBucket bucket])

/-- The sequential upload attempts of the `try` block: stop at the first
raised upload, keeping the paths recorded so far. -/
def tryUploads (w : World) (bucket : String) (publicFlag : Bool) :
    List (String × String) → List (String × UploadInfo) × List StorageOp × Bool
  | [] => ([], [], true)
  | (key, remote) :: rest =>
    if w.uploadFails remote then ([], [.upload bucket remote], false)
    else
      let (ps, ops, ok) := tryUploads w bucket publicFlag rest
      ((key, uploadInfo w bucket remote publicFlag) :: ps, .upload bucket remote :: ops, ok)

/-- Result dict of `upload_artifacts`. -/
structure UploadResult where
  status : String
  paths : List (String × UploadInfo)
deriving Repr, DecidableEq

/-- `Path(source_path).name`. -/
def pathName (p : String) : String :=
  (p.splitOn "/").getLastD p

/-- `upload_artifacts` (src/storage/supabase_storage.py lines 75-123),
together with the trace of storage calls it performs.  With no client it
returns `{status: skipped, paths: {}}` immediately; otherwise it ensures the
bucket (failure is fatal with empty paths) and uploads the source file and
the three report files that exist, stopping at the first failure with the
paths gathered so far. -/
def upload_artifacts (w : World) (file_id source_path : String) :
    UploadResult × List StorageOp :=
  match get_supabase_client w with
  | none => (⟨"skipped", []⟩, [])
  | some _ =>
    let bucket := (w.env "SUPABASE_STORAGE_BUCKET").getD "etl-artifacts"
    let publicFlag := boolEnv (some ((w.env "SUPABASE_STORAGE_PUBLIC").getD "false"))
    match ensure_bucket w bucket with
    | (none, ops) => (⟨"failed", []⟩, ops)
    | (some _, ops) =>
      let candidates :=
        (if w.sourceExists then
          [("source_file", "sources/" ++ file_id ++ "/" ++ pathName source_path)] else []) ++
        ([("data_quality_json", "data_quality.json"), ("data_quality_html", "data_quality.html"),
          ("inconsistencies_csv", "inconsistencies.csv")].filterMap fun p =>
          if w.reportExists p.2 then some (p.1, "reports/" ++ file_id ++ "/" ++ p.2) else none)
      let (paths, ops2, ok) := tryUploads w bucket publicFlag candidates
      ((if ok then ⟨"success", paths⟩ else ⟨"failed", paths⟩), ops ++ ops2)

end Storage

namespace Ingest

open Uni

/-- Is the character in the class `[A-Z0-9]` of the regexes in
`normalize_column_name`? -/
def isColKeep (c : Char) : Bool :=
  (65 ≤ c.toNat && c.toNat ≤ 90) || (48 ≤ c.toNat && c.toNat ≤ 57)

/-- `re.sub(r'[^A-Z0-9]+', '_', text)`: replace each maximal run of
characters outside `[A-Z0-9]` by a single underscore. -/
def subNonAlnum : List Char → List Char
  | [] => []
  | c :: cs =>
    if isColKeep c then c :: subNonAlnum cs
    else '_' :: subNonAlnum (cs.dropWhile (fun d => !isColKeep d))
termination_by l => l.length
decreasing_by
  · simp only [List.length_cons]; omega
  · have := (List.dropWhile_sublist (l := cs) (fun d => !isColKeep d)).length_le
    simp only [List.length_cons]; omega

/-- `re.sub(r'_+', '_', text)`: collapse runs of underscores. -/
def collapseUnderscore : List Char → List Char
  | [] => []
  | c :: cs =>
    if c = '_' then '_' :: collapseUnderscore (cs.dropWhile (fun d => d = '_'))
    else c :: collapseUnderscore cs
termination_by l => l.length
decreasing_by
  · have := (List.dropWhile_sublist (l := cs) (fun d => d = '_')).length_le
    simp only [List.length_cons]; omega
  · simp only [List.length_cons]; omega

/-- Python `str.strip('_')`. -/
def stripUnderscore (l : List Char) : List Char :=
  ((l.dropWhile (fun c => c = '_')).reverse.dropWhile (fun c => c = '_')).reverse

/-- `normalize_column_name` (src/etl/ingest.py lines 41-47): NFKD-fold to
ASCII, strip whitespace, uppercase, replace non-`[A-Z0-9]` runs by `_`,
collapse repeated `_`, trim `_` from both ends.  (The `str(col_name)`
coercion is a no-op here: headers are modelled as strings.) -/
def normalize_column_name (s : String) : String :=
  let folded := asciiFold s
  let upper := (pyStrip folded.data).map pyUpperChar
  String.mk (stripUnderscore (collapseUnderscore (subNonAlnum upper)))

/-- `REQUIRED_COLUMNS` (src/etl/ingest.py lines 27-30). -/
def REQUIRED_COLUMNS : List String :=
  ["NOMBRE_IES", "TIPO_IES", "TIPO_FINANCIAMIENTO", "NOMBRE_CARRERA",
   "CAMPO_AMPLIO", "NIVEL_FORMACION", "MODALIDAD", "PROVINCIA", "CANTON", "ESTADO"]

/-- The loader's error taxonomy (spec §7): the code raises `ValueError` with
a `Missing columns: ...` message (a `SchemaError` in the spec's taxonomy)
or a `Duplicate columns after normalization: ...` message (the spec's
`DuplicateColumnError`); the payloads are the data interpolated into those
messages. -/
inductive LoaderError
  | schemaError (missing : List String)
  | duplicateColumnError (dupes : List (String × List String))
deriving Repr, DecidableEq

/-- `normalize_columns` (src/etl/ingest.py lines 50-58) applied to the
header list of a dataframe.  The Python dict comprehension iterates distinct
column labels (`l.dedup`), the collision map groups originals by their
normalized name, and any group of size `> 1` aborts the load. -/
def normalize_columns (cols : List String) : Except LoaderError (List String) :=
  let uniq := cols.dedup
  let dupes := (uniq.map normalize_column_name).dedup.filterMap fun n =>
    let origs := uniq.filter fun c => normalize_column_name c = n
    if origs.length > 1 then some (n, origs) else none
  if dupes.isEmpty then Except.ok (cols.map normalize_column_name)
  else Except.error (.duplicateColumnError dupes)

/-- Does a raw spreadsheet row, once each cell is normalized as a column
name, cover all required columns?  This is the success test of the scan loop
in `detect_header_row`. -/
def headerRowMatches (row : List String) : Bool :=
  REQUIRED_COLUMNS.all fun col => (row.map normalize_column_name).contains col

/-- `detect_header_row` (src/etl/ingest.py lines 61-68): scan the first
`min(max_scan, len(df_raw))` raw rows and return the index of the first one
whose normalized cell values cover all required columns. -/
def detect_header_row (rows : List (List String)) (maxScan : Nat := 50) : Option Nat :=
  (rows.take (min maxScan rows.length)).findIdx? headerRowMatches

/-- `load_excel` (src/etl/ingest.py lines 71-88).  A spreadsheet is modelled
by its raw cell rows (what `pd.read_excel(path, header=None)` yields);
reading with header row `h` uses row `h` as the column labels and the rows
after it as data.  Returns the normalized column labels and the data rows,
or the error the code raises. -/
def load_excel (rows : List (List String)) :
    Except LoaderError (List String × List (List String)) :=
  match normalize_columns (rows.headD []) with
  | .error e => .error e
  | .ok cols =>
    let missing := REQUIRED_COLUMNS.filter fun c => !cols.contains c
    if missing.isEmpty then .ok (cols, rows.drop 1)
    else
      match detect_header_row rows with
      | none => .error (.schemaError missing)
      | some h =>
        match normalize_columns ((rows.drop h).headD []) with
        | .error e => .error e
        | .ok cols2 =>
          let missing2 := REQUIRED_COLUMNS.filter fun c => !cols2.contains c
          if missing2.isEmpty then .ok (cols2, rows.drop (h + 1))
          else .error (.schemaError missing2)

end Ingest

/-! ## Helper lemmas and claim theorems -/

namespace Ingest

theorem currentCount_append (st l : List FactRow) (nk : String) :
    currentCount (st ++ l) nk = currentCount st nk + currentCount l nk := by
  simp [currentCount]

theorem currentCount_newFactRow (L : DimLookups) (fid : String) (r : BatchRow) (nk : String) :
    currentCount [newFactRow L fid r] nk = if r.natural_key = nk then 1 else 0 := by
  by_cases h : r.natural_key = nk <;>
    simp [currentCount, List.countP_cons, newFactRow, h]

theorem currentCount_expireCurrent_self (fid nk : String) (st : List FactRow) :
    currentCount (expireCurrent fid nk st) nk = 0 := by
  simp only [currentCount, expireCurrent, List.countP_map]
  rw [List.countP_eq_zero]
  intro x _
  simp only [Function.comp_apply]
  by_cases h : x.natural_key = nk ∧ x.is_current
  · simp [h]
  · rw [if_neg h]
    simp only [Bool.and_eq_true, beq_iff_eq]
    rintro ⟨h1, h2⟩
    exact h ⟨h2, h1⟩

theorem currentCount_expireCurrent_ne (fid nk m : String) (st : List FactRow) (h : m ≠ nk) :
    currentCount (expireCurrent fid nk st) m = currentCount st m := by
  simp only [currentCount, expireCurrent, List.countP_map]
  apply List.countP_congr
  intro x _
  simp only [Function.comp_apply]
  by_cases hc : x.natural_key = nk ∧ x.is_current
  · simp [hc.1, hc.2, Ne.symm h]
  · rw [if_neg hc]

theorem currentCount_touchCurrent (fid nk m : String) (st : List FactRow) :
    currentCount (touchCurrent fid nk st) m = currentCount st m := by
  simp only [currentCount, touchCurrent, List.countP_map]
  apply List.countP_congr
  intro x _
  simp only [Function.comp_apply]
  by_cases hc : x.natural_key = nk ∧ x.is_current
  · simp [hc.1, hc.2]
  · rw [if_neg hc]

theorem currentHashMap_eq_none_iff (st : List FactRow) (nk : String) :
    currentHashMap st nk = none ↔ currentCount st nk = 0 := by
  simp only [currentHashMap, Option.map_eq_none', List.find?_eq_none, List.mem_reverse,
    List.mem_filter, currentCount, List.countP_eq_zero, Bool.and_eq_true, beq_iff_eq,
    decide_eq_true_eq]
  constructor
  · intro h r hr ⟨h1, h2⟩
    exact h r ⟨hr, h1⟩ h2
  · intro h r ⟨hr, h1⟩ h2
    exact h r hr ⟨h1, h2⟩

theorem mem_of_mem_keepLast : ∀ {l : List BatchRow} {r : BatchRow}, r ∈ keepLast l → r ∈ l := by
  intro l
  induction l with
  | nil => intro r h; simp [keepLast] at h
  | cons a l ih =>
    intro r h
    rw [keepLast] at h
    split at h
    · exact List.mem_cons_of_mem a (ih h)
    · rcases List.mem_cons.mp h with h1 | h1
      · exact h1 ▸ List.mem_cons_self a l
      · exact List.mem_cons_of_mem a (ih h1)

theorem keepLast_nodup_keys (l : List BatchRow) :
    ((keepLast l).map fun r => r.natural_key).Nodup := by
  induction l with
  | nil => simp [keepLast]
  | cons a l ih =>
    rw [keepLast]
    split
    · exact ih
    · rename_i hany
      simp only [List.map_cons, List.nodup_cons]
      refine ⟨?_, ih⟩
      intro hmem
      rcases List.mem_map.mp hmem with ⟨s, hs, hseq⟩
      have hsl : s ∈ l := mem_of_mem_keepLast hs
      exact hany (List.any_eq_true.mpr ⟨s, hsl, by simp [hseq]⟩)

theorem mem_keys_keepLast_iff (l : List BatchRow) (nk : String) :
    (nk ∈ (keepLast l).map fun r => r.natural_key) ↔ nk ∈ l.map fun r => r.natural_key := by
  induction l with
  | nil => simp [keepLast]
  | cons a l ih =>
    rw [keepLast]
    split
    · rename_i hany
      rw [ih]
      simp only [List.map_cons, List.mem_cons]
      constructor
      · exact Or.inr
      · rintro (h1 | h1)
        · rcases List.any_eq_true.mp hany with ⟨s, hs, hseq⟩
          simp only [decide_eq_true_eq] at hseq
          exact List.mem_map.mpr ⟨s, hs, by rw [hseq, ← h1]⟩
        · exact h1
    · simp only [List.map_cons, List.mem_cons, ih]

/-- The key accounting fact: `drop_duplicates(keep='last')` yields one row
per distinct natural key of the batch. -/
theorem keepLast_length_eq_dedup_length (l : List BatchRow) :
    (keepLast l).length = ((l.map fun r => r.natural_key).dedup).length := by
  have h1 : ((keepLast l).map fun r => r.natural_key).toFinset =
      ((l.map fun r => r.natural_key).dedup).toFinset := by
    apply Finset.ext
    intro nk
    simp only [List.mem_toFinset, List.mem_dedup]
    exact mem_keys_keepLast_iff l nk
  have h2 := List.toFinset_card_of_nodup (keepLast_nodup_keys l)
  have h3 := List.toFinset_card_of_nodup (List.nodup_dedup (l.map fun r => r.natural_key))
  calc (keepLast l).length
      = ((keepLast l).map fun r => r.natural_key).length := (List.length_map _ _).symm
    _ = ((l.map fun r => r.natural_key).dedup).length := by rw [← h2, ← h3, h1]

theorem scdProcessRow_total (L : DimLookups) (fid : String) (em : String → Option String)
    (acc : List FactRow × ScdCounts) (r : BatchRow) :
    ((scdProcessRow L fid em acc r).2).total = acc.2.total + 1 := by
  obtain ⟨st, c⟩ := acc
  rw [scdProcessRow]
  split
  · simp [ScdCounts.total]; omega
  · split
    · split
      · simp [ScdCounts.total]; omega
      · simp [ScdCounts.total]; omega
    · simp [ScdCounts.total]; omega

theorem scd_fold_total (L : DimLookups) (fid : String) (em : String → Option String) :
    ∀ (l : List BatchRow) (acc : List FactRow × ScdCounts),
      ((l.foldl (scdProcessRow L fid em) acc).2).total = acc.2.total + l.length := by
  intro l
  induction l with
  | nil => intro acc; simp
  | cons r l ih =>
    intro acc
    rw [List.foldl_cons, ih, scdProcessRow_total]
    simp only [List.length_cons]
    omega

theorem scd_fold_atMostOne (L : DimLookups) (fid : String) (st₀ : List FactRow) :
    ∀ (l : List BatchRow) (st : List FactRow) (c : ScdCounts),
      (∀ nk, currentCount st nk ≤ 1) →
      (∀ r ∈ l, currentCount st r.natural_key = currentCount st₀ r.natural_key) →
      ((l.map fun r => r.natural_key).Nodup) →
      ∀ nk, currentCount ((l.foldl (scdProcessRow L fid (currentHashMap st₀)) (st, c)).1) nk ≤ 1 := by
  intro l
  induction l with
  | nil => intro st c h1 _ _ nk; exact h1 nk
  | cons r l ih =>
    intro st c h1 h2 h3 nk
    rw [List.foldl_cons]
    have hkey : ∀ s ∈ l, s.natural_key ≠ r.natural_key := by
      intro s hs heq
      simp only [List.map_cons, List.nodup_cons] at h3
      exact h3.1 (List.mem_map.mpr ⟨s, hs, heq⟩)
    have h3' : (l.map fun s => s.natural_key).Nodup := by
      simp only [List.map_cons, List.nodup_cons] at h3
      exact h3.2
    rw [scdProcessRow]
    split
    · exact ih st _ h1 (fun s hs => h2 s (List.mem_cons_of_mem r hs)) h3' nk
    · split
      · split
        · -- changed hash: expire all current rows for this key, insert one
          apply ih _ _ ?_ ?_ h3' nk
          · intro m
            rw [currentCount_append]
            by_cases hm : m = r.natural_key
            · subst hm
              rw [currentCount_expireCurrent_self, currentCount_newFactRow]
              simp
            · rw [currentCount_expireCurrent_ne _ _ _ _ hm, currentCount_newFactRow,
                if_neg fun hh => hm hh.symm]
              simpa using h1 m
          · intro s hs
            rw [currentCount_append,
              currentCount_expireCurrent_ne _ _ _ _ (hkey s hs), currentCount_newFactRow,
              if_neg fun hh => (hkey s hs) hh.symm]
            simpa using h2 s (List.mem_cons_of_mem r hs)
        · -- unchanged hash: only last_file_id is touched
          apply ih _ _ ?_ ?_ h3'
          · intro m; rw [currentCount_touchCurrent]; exact h1 m
          · intro s hs
            rw [currentCount_touchCurrent]
            exact h2 s (List.mem_cons_of_mem r hs)
      · -- new key: the key has no current row, insert one
        rename_i hmapnone
        apply ih _ _ ?_ ?_ h3'
        · intro m
          rw [currentCount_append, currentCount_newFactRow]
          by_cases hm : r.natural_key = m
          · rw [if_pos hm, ← hm]
            have h0 : currentCount st₀ r.natural_key = 0 :=
              (currentHashMap_eq_none_iff st₀ r.natural_key).mp hmapnone
            have := h2 r (List.mem_cons_self r l)
            omega
          · rw [if_neg hm]
            simpa using h1 m
        · intro s hs
          rw [currentCount_append, currentCount_newFactRow,
            if_neg fun hh => (hkey s hs) hh.symm]
          simpa using h2 s (List.mem_cons_of_mem r hs)

/-- Claim C1: for every initial fact-table state with at most one
`is_current` row per natural key, the SCD Type-2 maintenance step of
`run_pipeline` leaves a state that still has at most one `is_current` row
per natural key, for any incoming batch, dimension lookups and file id. -/
theorem scd_fact_step_preserves_invariant (L : DimLookups) (fid : String)
    (st : List FactRow) (batch : List BatchRow) (h : atMostOneCurrent st) :
    atMostOneCurrent (scd_fact_step L fid st batch).1 := by
  intro nk
  exact scd_fold_atMostOne L fid st (keepLast batch) st ⟨0, 0, 0, 0⟩ h
    (fun _ _ => rfl) (keepLast_nodup_keys batch) nk

theorem scd_fact_step_preserves_invariant_witness :
    atMostOneCurrent
      [⟨1, 1, 1, some "A", some "vigente", "k1", "h1", some "f0", true⟩] ∧
    atMostOneCurrent
      (scd_fact_step
        ⟨fun _ => some 1, fun _ => some 1, fun _ => some 1⟩ "f1"
        [⟨1, 1, 1, some "A", some "vigente", "k1", "h1", some "f0", true⟩]
        [⟨"k1", "h2", some "u", some "c", some "f", some "n", some "m", some "p", some "q",
          some "A", some "vigente"⟩,
         ⟨"k2", "h3", some "u", some "c", some "f", some "n", some "m", some "p", some "q",
          some "B", some "no vigente"⟩]).1 := by
  constructor
  · intro nk
    simp [currentCount, List.countP_cons]
    split <;> omega
  · exact scd_fact_step_preserves_invariant _ _ _ _
      (by
        intro nk
        simp [currentCount, List.countP_cons]
        split <;> omega)

/-- Claim C2: after the per-natural-key SCD state machine runs over a batch
(duplicates collapsed keeping the last occurrence), the counters satisfy
`new + updated + unchanged + skipped_missing_dims` = number of distinct
natural keys in the batch, each processed row bumping exactly one counter
by one. -/
theorem scd_fact_step_counts (L : DimLookups) (fid : String)
    (st : List FactRow) (batch : List BatchRow) :
    (((scd_fact_step L fid st batch).2).new + ((scd_fact_step L fid st batch).2).updated +
        ((scd_fact_step L fid st batch).2).unchanged +
        ((scd_fact_step L fid st batch).2).skipped_missing_dims =
      ((batch.map fun r => r.natural_key).dedup).length) ∧
    ∀ (acc : List FactRow × ScdCounts) (r : BatchRow),
      ((scdProcessRow L fid (currentHashMap st) acc r).2).total = acc.2.total + 1 := by
  constructor
  · have h := scd_fold_total L fid (currentHashMap st) (keepLast batch)
      (st, ⟨0, 0, 0, 0⟩)
    simp only [ScdCounts.total] at h
    rw [scd_fact_step]
    have hlen := keepLast_length_eq_dedup_length batch
    omega
  · intro acc r
    exact scdProcessRow_total L fid (currentHashMap st) acc r

end Ingest

namespace Ingest

/-- Claim C5: the checksum guard skips (returning the prior `file_id` and
stamping a note on that record) exactly when the record holding this
checksum has status `success`; with a non-success record or no record it
proceeds and writes nothing.  Checksums are unique across
`raw_ingest.files` (spec §3), which the hypothesis records. -/
theorem should_skip_by_checksum_spec (db : List FileRec) (c now : String)
    (huniq : ∀ r1 ∈ db, ∀ r2 ∈ db, r1.checksum_sha256 = r2.checksum_sha256 → r1 = r2) :
    ((should_skip_by_checksum db c now).1.1 = true ↔
      ∃ r ∈ db, r.checksum_sha256 = c ∧ r.status = "success") ∧
    (∀ r ∈ db, r.checksum_sha256 = c → r.status = "success" →
      (should_skip_by_checksum db c now).1 = (true, some r.file_id) ∧
      (should_skip_by_checksum db c now).2 =
        db.map fun x =>
          if x.file_id = r.file_id then
            { x with notes := some ("Duplicate checksum skipped at " ++ now ++ "Z") }
          else x) ∧
    ((should_skip_by_checksum db c now).1.1 = false →
      (should_skip_by_checksum db c now).1 = (false, none) ∧
      (should_skip_by_checksum db c now).2 = db) := by
  cases hfind : db.find? fun r => r.checksum_sha256 = c with
  | none =>
    have hno : ∀ r ∈ db, r.checksum_sha256 ≠ c := by
      intro r hr
      have := List.find?_eq_none.mp hfind r hr
      simpa using this
    refine ⟨?_, ?_, ?_⟩
    · simp only [should_skip_by_checksum, hfind]
      constructor
      · intro h; exact absurd h (by simp)
      · rintro ⟨r, hr, hc, _⟩; exact absurd hc (hno r hr)
    · intro r hr hc _
      exact absurd hc (hno r hr)
    · intro _
      simp [should_skip_by_checksum, hfind]
  | some r0 =>
    have hr0mem : r0 ∈ db := List.mem_of_find?_eq_some hfind
    have hr0c : r0.checksum_sha256 = c := by
      have := List.find?_some hfind
      simpa using this
    by_cases hs : r0.status = "success"
    · refine ⟨?_, ?_, ?_⟩
      · simp only [should_skip_by_checksum, hfind, hs, if_pos]
        simp only [true_iff]
        exact ⟨r0, hr0mem, hr0c, hs⟩
      · intro r hr hc hsucc
        have : r = r0 := huniq r hr r0 hr0mem (by rw [hc, hr0c])
        subst this
        simp [should_skip_by_checksum, hfind, hs]
      · intro hfalse
        simp [should_skip_by_checksum, hfind, hs] at hfalse
    · have hres : should_skip_by_checksum db c now = ((false, none), db) := by
        simp [should_skip_by_checksum, hfind, hs]
      refine ⟨?_, ?_, ?_⟩
      · rw [hres]
        constructor
        · intro h; simp at h
        · rintro ⟨r, hr, hc, hsucc⟩
          have heq : r = r0 := huniq r hr r0 hr0mem (by rw [hc, hr0c])
          exact absurd (heq ▸ hsucc) hs
      · intro r hr hc hsucc
        have heq : r = r0 := huniq r hr r0 hr0mem (by rw [hc, hr0c])
        exact absurd (heq ▸ hsucc) hs
      · intro _
        rw [hres]
        exact ⟨rfl, rfl⟩

theorem should_skip_by_checksum_spec_witness :
    (should_skip_by_checksum
      [⟨"f1", "abc", "success", none⟩, ⟨"f2", "def", "failed", none⟩] "abc" "T").1 =
      (true, some "f1") ∧
    (should_skip_by_checksum
      [⟨"f1", "abc", "success", none⟩, ⟨"f2", "def", "failed", none⟩] "abc" "T").2 =
      [⟨"f1", "abc", "success", some "Duplicate checksum skipped at TZ"⟩,
       ⟨"f2", "def", "failed", none⟩] := by
  have h := (should_skip_by_checksum_spec
    [⟨"f1", "abc", "success", none⟩, ⟨"f2", "def", "failed", none⟩] "abc" "T"
    (by decide)).2.1 ⟨"f1", "abc", "success", none⟩ (by simp) rfl rfl
  refine ⟨h.1, ?_⟩
  rw [h.2]
  simp

end Ingest

theorem two_le_length_of_two_mem {α : Type} {l : List α} {a b : α}
    (ha : a ∈ l) (hb : b ∈ l) (hab : a ≠ b) : 2 ≤ l.length := by
  match l with
  | [] => exact absurd ha (List.not_mem_nil a)
  | [x] =>
    simp only [List.mem_singleton] at ha hb
    exact absurd (ha.trans hb.symm) hab
  | x :: y :: t => simp only [List.length_cons]; omega

namespace Ingest

/-- Claim C7: `normalize_column_name` maps `NIVEL FORMACIÓN` to
`NIVEL_FORMACION` and `CANTÓN` to `CANTON`, and whenever two distinct raw
headers normalize to the same name, `normalize_columns` fails with the
duplicate-column error rather than returning renamed columns. -/
theorem normalize_columns_spec :
    normalize_column_name "NIVEL FORMACIÓN" = "NIVEL_FORMACION" ∧
    normalize_column_name "CANTÓN" = "CANTON" ∧
    ∀ (cols : List String) (a b : String), a ∈ cols → b ∈ cols → a ≠ b →
      normalize_column_name a = normalize_column_name b →
      ∃ d, normalize_columns cols = Except.error (LoaderError.duplicateColumnError d) := by
  refine ⟨?_, ?_, ?_⟩
  · simp [normalize_column_name, Uni.asciiFold, Uni.asciiFoldChar, Uni.accentTable,
      Uni.pyStrip, Uni.pyIsSpace, Uni.pyUpperChar, subNonAlnum, collapseUnderscore,
      stripUnderscore, isColKeep]
  · simp [normalize_column_name, Uni.asciiFold, Uni.asciiFoldChar, Uni.accentTable,
      Uni.pyStrip, Uni.pyIsSpace, Uni.pyUpperChar, subNonAlnum, collapseUnderscore,
      stripUnderscore, isColKeep]
  · intro cols a b ha hb hab hf
    have hau : a ∈ cols.dedup := List.mem_dedup.mpr ha
    have hbu : b ∈ cols.dedup := List.mem_dedup.mpr hb
    have hfa : a ∈ cols.dedup.filter
        fun c => normalize_column_name c = normalize_column_name a := by
      rw [List.mem_filter]
      exact ⟨hau, by simp⟩
    have hfb : b ∈ cols.dedup.filter
        fun c => normalize_column_name c = normalize_column_name a := by
      rw [List.mem_filter]
      exact ⟨hbu, by simp [hf]⟩
    have h2 : 2 ≤ (cols.dedup.filter
        fun c => normalize_column_name c = normalize_column_name a).length :=
      two_le_length_of_two_mem hfa hfb hab
    have hn : normalize_column_name a ∈ (cols.dedup.map normalize_column_name).dedup :=
      List.mem_dedup.mpr (List.mem_map.mpr ⟨a, hau, rfl⟩)
    rw [normalize_columns]
    split
    · rename_i hempty
      exfalso
      rw [List.isEmpty_iff] at hempty
      have hnone := List.filterMap_eq_nil_iff.mp hempty (normalize_column_name a) hn
      rw [if_pos (by omega)] at hnone
      exact Option.noConfusion hnone
    · exact ⟨_, rfl⟩

theorem normalize_columns_spec_witness :
    ("NOMBRE IES" : String) ≠ "NOMBRE_IES" ∧
    ∃ d, normalize_columns ["NOMBRE IES", "NOMBRE_IES"] =
      Except.error (LoaderError.duplicateColumnError d) := by
  refine ⟨by decide, ?_⟩
  exact normalize_columns_spec.2.2 ["NOMBRE IES", "NOMBRE_IES"] "NOMBRE IES" "NOMBRE_IES"
    (by simp) (by simp) (by decide)
    (by simp [normalize_column_name, Uni.asciiFold, Uni.asciiFoldChar, Uni.accentTable,
      Uni.pyStrip, Uni.pyIsSpace, Uni.pyUpperChar, subNonAlnum, collapseUnderscore,
      stripUnderscore, isColKeep])

end Ingest

namespace Ingest

/-- Claim C6: `detect_header_row` returns the smallest index, among the
first `min(50, row_count)` raw rows, of a row whose normalized cell values
cover all required columns (`none` when no such row exists); and when the
first-row headers leave required columns missing and detection finds no
header row, `load_excel` fails with the schema error listing the missing
columns. -/
theorem detect_header_row_spec (rows : List (List String)) :
    (∀ i, detect_header_row rows = some i →
      i < min 50 rows.length ∧
      (∃ row, rows[i]? = some row ∧ headerRowMatches row = true) ∧
      (∀ j, j < i → ∀ row, rows[j]? = some row → headerRowMatches row = false)) ∧
    (detect_header_row rows = none ↔
      ∀ j, j < min 50 rows.length → ∀ row, rows[j]? = some row →
        headerRowMatches row = false) ∧
    (∀ cols, normalize_columns (rows.headD []) = Except.ok cols →
      (REQUIRED_COLUMNS.filter fun c => !cols.contains c) ≠ [] →
      detect_header_row rows = none →
      load_excel rows = Except.error
        (LoaderError.schemaError (REQUIRED_COLUMNS.filter fun c => !cols.contains c))) := by
  have hm : (rows.take (min 50 rows.length)).length = min 50 rows.length := by
    rw [List.length_take]; omega
  refine ⟨?_, ?_, ?_⟩
  · intro i h
    simp only [detect_header_row] at h
    obtain ⟨hlt, hfind⟩ := List.findIdx?_eq_some_iff_findIdx_eq.mp h
    have him : i < min 50 rows.length := hm ▸ hlt
    obtain ⟨hp, hprev⟩ := (List.findIdx_eq (p := headerRowMatches) hlt).mp hfind
    refine ⟨him, ?_, ?_⟩
    · refine ⟨(rows.take (min 50 rows.length)).get ⟨i, hlt⟩, ?_, ?_⟩
      · rw [← List.getElem?_take_of_lt (l := rows) him, List.getElem?_eq_getElem hlt]
        rfl
      · simpa using hp
    · intro j hj row hrow
      have hjlt : j < (rows.take (min 50 rows.length)).length := by omega
      have hjm : j < min 50 rows.length := by omega
      have : (rows.take (min 50 rows.length))[j]? = some row := by
        rw [List.getElem?_take_of_lt (l := rows) hjm]; exact hrow
      rw [List.getElem?_eq_getElem hjlt] at this
      have hrow' : (rows.take (min 50 rows.length))[j] = row := by
        exact Option.some.inj this
      have := hprev j hj
      rw [hrow'] at this
      exact this
  · simp only [detect_header_row]
    rw [List.findIdx?_eq_none_iff]
    constructor
    · intro hall j hj row hrow
      apply hall row
      apply List.mem_iff_getElem?.mpr
      refine ⟨j, ?_⟩
      rw [List.getElem?_take_of_lt (l := rows) hj]
      exact hrow
    · intro hidx x hx
      obtain ⟨n, hn⟩ := List.mem_iff_getElem?.mp hx
      have hnlt : n < (rows.take (min 50 rows.length)).length := by
        by_contra hge
        rw [List.getElem?_eq_none (by omega)] at hn
        exact Option.noConfusion hn
      have hnm : n < min 50 rows.length := by omega
      have : rows[n]? = some x := by
        rw [← List.getElem?_take_of_lt (l := rows) hnm]; exact hn
      exact hidx n hnm x this
  · intro cols hc hne hdet
    have hbool : (REQUIRED_COLUMNS.filter fun c => !cols.contains c).isEmpty = false := by
      rw [List.isEmpty_eq_false]; exact hne
    simp only [load_excel, hc, hbool, hdet]
    rfl

theorem detect_header_row_spec_witness :
    normalize_columns ([["A"], ["B"]].headD []) = Except.ok ["A"] ∧
    detect_header_row [["A"], ["B"]] = none ∧
    load_excel [["A"], ["B"]] =
      Except.error (LoaderError.schemaError
        (REQUIRED_COLUMNS.filter fun c => !(["A"].contains c))) := by
  have hc : normalize_columns ([["A"], ["B"]].headD []) = Except.ok ["A"] := by
    simp [normalize_columns, normalize_column_name, Uni.asciiFold, Uni.asciiFoldChar,
      Uni.accentTable, Uni.pyStrip, Uni.pyIsSpace, Uni.pyUpperChar, subNonAlnum,
      collapseUnderscore, stripUnderscore, isColKeep]
  have hdet : detect_header_row [["A"], ["B"]] = none := by
    simp [detect_header_row, headerRowMatches, REQUIRED_COLUMNS, normalize_column_name,
      Uni.asciiFold, Uni.asciiFoldChar, Uni.accentTable, Uni.pyStrip, Uni.pyIsSpace,
      Uni.pyUpperChar, subNonAlnum, collapseUnderscore, stripUnderscore, isColKeep,
      List.findIdx?]
  exact ⟨hc, hdet,
    (detect_header_row_spec [["A"], ["B"]]).2.2 ["A"] hc (by decide) hdet⟩

end Ingest

namespace DQ

/-- Claim C8: the invalid-(province, canton)-pair check flags only rows
whose normalized province and canton are both non-null and non-empty (rows
that pass the structural missing-territory check), so no row is flagged by
both the `missing_territory_norm` check and the `invalid_territory_pair`
check. -/
theorem invalid_pair_check_exclusive (vp : List (String × String)) (df : List DqRow) :
    (∀ r ∈ invalidPairRows vp df,
      r.provincia_norm ≠ none ∧ r.provincia_norm ≠ some "" ∧
      r.canton_norm ≠ none ∧ r.canton_norm ≠ some "" ∧ invalidGeoMask r = false) ∧
    (∀ r : DqRow, ¬(r ∈ invalidPairRows vp df ∧ r ∈ missingTerritoryRows df)) := by
  have hmain : ∀ r ∈ invalidPairRows vp df, invalidGeoMask r = false := by
    intro r hr
    rw [invalidPairRows] at hr
    split at hr
    · exact absurd hr (List.not_mem_nil r)
    · rw [List.mem_filter] at hr
      have := hr.2
      rw [Bool.and_eq_true] at this
      simpa using this.2
  refine ⟨?_, ?_⟩
  · intro r hr
    have hmask := hmain r hr
    rw [invalidGeoMask] at hmask
    simp only [Bool.or_eq_false_iff, Option.isNone_eq_false_iff, Option.isSome_iff_ne_none,
      beq_eq_false_iff_ne] at hmask
    exact ⟨hmask.1.1.1, hmask.1.1.2, hmask.1.2, hmask.2, hmain r hr⟩
  · rintro r ⟨hpair, hmiss⟩
    rw [missingTerritoryRows, List.mem_filter] at hmiss
    rw [hmain r hpair] at hmiss
    exact Bool.noConfusion hmiss.2

theorem invalid_pair_check_exclusive_witness :
    (⟨"k", "h", some "x", some "y", none, none, none, none, none⟩ : DqRow) ∈
      invalidPairRows [("a", "a")]
        [⟨"k", "h", some "x", some "y", none, none, none, none, none⟩] ∧
    (⟨"k", "h", some "x", some "y", none, none, none, none, none⟩ : DqRow).provincia_norm ≠
      none ∧
    invalidGeoMask ⟨"k", "h", some "x", some "y", none, none, none, none, none⟩ = false := by
  have hmem : (⟨"k", "h", some "x", some "y", none, none, none, none, none⟩ : DqRow) ∈
      invalidPairRows [("a", "a")]
        [⟨"k", "h", some "x", some "y", none, none, none, none, none⟩] := by
    simp [invalidPairRows, pairNotValid, invalidGeoMask]
  have h := (invalid_pair_check_exclusive [("a", "a")]
    [⟨"k", "h", some "x", some "y", none, none, none, none, none⟩]).1 _ hmem
  exact ⟨hmem, h.1, h.2.2.2.2⟩

end DQ

namespace Storage

/-- Claim C10: when the supabase client library is not installed or either
`SUPABASE_URL` or `SUPABASE_SERVICE_ROLE_KEY` is unset, `upload_artifacts`
returns exactly `{status: skipped, paths: {}}` and performs no bucket or
upload operation, for every file id and source path. -/
theorem upload_artifacts_skipped (w : World) (file_id source_path : String)
    (h : w.createClientAvailable = false ∨
      w.env "SUPABASE_URL" = none ∨ w.env "SUPABASE_SERVICE_ROLE_KEY" = none) :
    upload_artifacts w file_id source_path = (⟨"skipped", []⟩, []) := by
  have hc : get_supabase_client w = none := by
    rcases h with h | h | h
    · simp [get_supabase_client, h]
    · simp [get_supabase_client, h, pyTruthyEnv]
    · simp [get_supabase_client, h, pyTruthyEnv]
  simp [upload_artifacts, hc]

theorem upload_artifacts_skipped_witness :
    upload_artifacts
      ⟨false, fun _ => some "x", some [], false, true, fun _ => true, fun _ => false⟩
      "file-1" "data/offers.xlsx" = (⟨"skipped", []⟩, []) :=
  upload_artifacts_skipped _ "file-1" "data/offers.xlsx" (Or.inl rfl)

end Storage

namespace Ingest

/-- Claim C3: `generate_row_hash` is exactly the SHA-256 hex digest of the
sorted-keys JSON serialization of the natural key and the normalized status
(empty string when missing); consequently rows agreeing on those two values
hash identically regardless of every other field, and equal inputs give
equal outputs. -/
theorem generate_row_hash_spec (r1 r2 : StgRow) :
    generate_row_hash r1 =
      Sha256.sha256Hex (Sha256.strBytes
        (rowHashJson (generate_natural_key r1) (orEmpty r1.estado_norm))) ∧
    (generate_natural_key r1 = generate_natural_key r2 → r1.estado_norm = r2.estado_norm →
      generate_row_hash r1 = generate_row_hash r2) ∧
    (r1 = r2 → generate_row_hash r1 = generate_row_hash r2) := by
  refine ⟨rfl, ?_, ?_⟩
  · intro h1 h2
    rw [generate_row_hash, generate_row_hash, h1, h2]
  · intro h
    rw [h]

theorem generate_row_hash_spec_witness :
    (StgRow.mk (some "u") (some "c") (some "vigente") (some "f") (some "n") (some "m")
        (some "p") (some "q") (some "VIGENTE")).ESTADO ≠
      (StgRow.mk (some "u") (some "c") (some "vigente") (some "f") (some "n") (some "m")
        (some "p") (some "q") (some "Vigente ")).ESTADO ∧
    generate_row_hash
      (StgRow.mk (some "u") (some "c") (some "vigente") (some "f") (some "n") (some "m")
        (some "p") (some "q") (some "VIGENTE")) =
    generate_row_hash
      (StgRow.mk (some "u") (some "c") (some "vigente") (some "f") (some "n") (some "m")
        (some "p") (some "q") (some "Vigente ")) := by
  refine ⟨by decide, ?_⟩
  exact (generate_row_hash_spec
    (StgRow.mk (some "u") (some "c") (some "vigente") (some "f") (some "n") (some "m")
      (some "p") (some "q") (some "VIGENTE"))
    (StgRow.mk (some "u") (some "c") (some "vigente") (some "f") (some "n") (some "m")
      (some "p") (some "q") (some "Vigente "))).2.1 rfl rfl

end Ingest

namespace Geo

theorem lcs_le_left : (l r : List Char) → lcs l r ≤ l.length
  | [], r => by simp [lcs]
  | _ :: _, [] => by simp [lcs]
  | a :: as, b :: bs => by
    simp only [lcs]
    split
    · have := lcs_le_left as bs
      simp only [List.length_cons]
      omega
    · have h1 := lcs_le_left (a :: as) bs
      have h2 := lcs_le_left as (b :: bs)
      simp only [List.length_cons] at *
      omega
termination_by l r => l.length + r.length
decreasing_by all_goals simp only [List.length_cons]; omega

theorem lcs_le_right : (l r : List Char) → lcs l r ≤ r.length
  | [], r => by simp [lcs]
  | _ :: _, [] => by simp [lcs]
  | a :: as, b :: bs => by
    simp only [lcs]
    split
    · have := lcs_le_right as bs
      simp only [List.length_cons]
      omega
    · have h1 := lcs_le_right (a :: as) bs
      have h2 := lcs_le_right as (b :: bs)
      simp only [List.length_cons] at *
      omega
termination_by l r => l.length + r.length
decreasing_by all_goals simp only [List.length_cons]; omega

theorem lcs_self : (l : List Char) → lcs l l = l.length
  | [] => by simp [lcs]
  | a :: as => by simp [lcs, lcs_self as]

theorem eq_of_lcs_eq_lengths :
    (l r : List Char) → lcs l r = l.length → lcs l r = r.length → l = r
  | [], [], _, _ => rfl
  | [], _ :: _, _, h2 => by simp [lcs] at h2
  | _ :: _, [], h1, _ => by simp [lcs] at h1
  | a :: as, b :: bs, h1, h2 => by
    by_cases hab : a = b
    · simp only [lcs, if_pos hab, List.length_cons] at h1 h2
      have := eq_of_lcs_eq_lengths as bs (by omega) (by omega)
      rw [hab, this]
    · exfalso
      simp only [lcs, if_neg hab, List.length_cons] at h1 h2
      have hx := lcs_le_right (a :: as) bs
      have hy := lcs_le_left as (b :: bs)
      omega
termination_by l r => l.length + r.length
decreasing_by all_goals simp only [List.length_cons]; omega

theorem fuzzScore_eq_100_iff (a b : String) : fuzzScore a b = 100 ↔ a = b := by
  rw [fuzzScore]
  split
  · rename_i h0
    have ha : a.data.length = 0 := by
      have : a.length + b.length = 0 := h0
      have hla : a.length = a.data.length := rfl
      omega
    have hb : b.data.length = 0 := by
      have : a.length + b.length = 0 := h0
      have hlb : b.length = b.data.length := rfl
      omega
    constructor
    · intro _
      have hda : a.data = [] := List.length_eq_zero.mp ha
      have hdb : b.data = [] := List.length_eq_zero.mp hb
      cases a; cases b
      simp_all
    · intro _; rfl
  · rename_i h0
    have hpos : 0 < a.length + b.length := Nat.pos_of_ne_zero h0
    have hden : ((a.length : ℚ) + b.length) ≠ 0 := by
      have : (0 : ℚ) < (a.length : ℚ) + b.length := by exact_mod_cast hpos
      linarith
    constructor
    · intro h
      rw [div_eq_iff hden] at h
      have h2 : (2 * (lcs a.data b.data : ℚ)) = (a.length : ℚ) + b.length := by linarith
      have h3 : 2 * lcs a.data b.data = a.length + b.length := by exact_mod_cast h2
      have hl := lcs_le_left a.data b.data
      have hr := lcs_le_right a.data b.data
      have hla : a.length = a.data.length := rfl
      have hlb : b.length = b.data.length := rfl
      have heq := eq_of_lcs_eq_lengths a.data b.data (by omega) (by omega)
      cases a; cases b
      exact congrArg String.mk heq
    · intro h
      subst h
      rw [lcs_self]
      have hla : (a.length : ℚ) = (a.data.length : ℚ) := rfl
      rw [← hla]
      field_simp
      ring

end Geo

namespace Geo

theorem extractOne_foldl_aux (q : String) :
    ∀ (l : List String) (acc : Option (String × ℚ)) (b : String) (s : ℚ),
      l.foldl (fun best c =>
        match best with
        | none => some (c, fuzzScore q c)
        | some (b0, bs) =>
          if fuzzScore q c > bs then some (c, fuzzScore q c) else some (b0, bs)) acc
          = some (b, s) →
      acc = some (b, s) ∨ (b ∈ l ∧ s = fuzzScore q b) := by
  intro l
  induction l with
  | nil => intro acc b s h; exact Or.inl h
  | cons c l ih =>
    intro acc b s h
    rw [List.foldl_cons] at h
    rcases ih _ b s h with h1 | h1
    · cases acc with
      | none =>
        have h2 : some (c, fuzzScore q c) = some (b, s) := h1
        have h3 := Option.some.inj h2
        have hcb : c = b := congrArg Prod.fst h3
        have hss : fuzzScore q c = s := congrArg Prod.snd h3
        exact Or.inr ⟨hcb ▸ List.mem_cons_self c l, by rw [← hss, hcb]⟩
      | some p =>
        obtain ⟨b0, s0⟩ := p
        have h2 : (if fuzzScore q c > s0 then some (c, fuzzScore q c) else some (b0, s0))
            = some (b, s) := h1
        split at h2
        · have h3 := Option.some.inj h2
          have hcb : c = b := congrArg Prod.fst h3
          have hss : fuzzScore q c = s := congrArg Prod.snd h3
          exact Or.inr ⟨hcb ▸ List.mem_cons_self c l, by rw [← hss, hcb]⟩
        · exact Or.inl h2
    · exact Or.inr ⟨List.mem_cons_of_mem c h1.1, h1.2⟩

/-- A result of `extractOne` is one of the choices, with its `fuzzScore`. -/
theorem extractOne_spec (q : String) (choices : List String) (b : String) (s : ℚ)
    (h : extractOne q choices = some (b, s)) : b ∈ choices ∧ s = fuzzScore q b := by
  rw [extractOne] at h
  rcases extractOne_foldl_aux q choices none b s h with h1 | h1
  · exact Option.noConfusion h1
  · exact h1

end Geo

namespace Geo

/-- Claim C4: with the default threshold 85, a province whose best fuzzy
score is exactly 85 is accepted and one whose best score is 84 or lower is
rejected with `(None, None, 0, 0, failed_prov)`; an input equal to a
canonical province scores 100, with method `exact` at 100/100 when the
canton also matches exactly inside that province's scoped canton list, and
method `fuzzy` for every other successful match. -/

theorem match_territory_spec (m : GeoMatcher) (pv ct : String) (hcat : m.hasCatalog = true) :
    (∀ b : String, normalize_text pv ∉ m.provinces →
      extractOne (normalize_text pv) m.provinces = some (b, 85) →
      (m.match_territory pv ct 85).provincia = some b) ∧
    (∀ (b : String) (s : ℚ), normalize_text pv ∉ m.provinces →
      extractOne (normalize_text pv) m.provinces = some (b, s) → s ≤ 84 →
      m.match_territory pv ct 85 = ⟨none, none, 0, 0, "failed_prov"⟩) ∧
    (normalize_text pv ∈ m.provinces →
      (m.match_territory pv ct 85).provincia = some (normalize_text pv) ∧
      (m.match_territory pv ct 85).score_prov = 100) ∧
    (normalize_text pv ∈ m.provinces →
      normalize_text ct ∈ m.cantonsOf (normalize_text pv) →
      m.match_territory pv ct 85 =
        ⟨some (normalize_text pv), some (normalize_text ct), 100, 100, "exact"⟩) ∧
    ((m.match_territory pv ct 85).canton.isSome = true →
      ((m.match_territory pv ct 85).method = "exact" ↔
        normalize_text pv ∈ m.provinces ∧
          normalize_text ct ∈ m.cantonsOf (normalize_text pv)) ∧
      ((m.match_territory pv ct 85).method = "exact" ∨
        (m.match_territory pv ct 85).method = "fuzzy")) := by
  refine ⟨?_, ?_, ?_, ?_, ?_⟩
  · intro b hnp hext
    simp only [GeoMatcher.match_territory, hcat, Bool.not_true, Bool.false_eq_true, if_false,
      if_neg hnp, hext]
    simp only [ge_iff_le, le_refl, if_pos]
    split <;> rfl
  · intro b s hnp hext hle
    simp only [GeoMatcher.match_territory, hcat, Bool.not_true, Bool.false_eq_true, if_false,
      if_neg hnp, hext]
    rw [if_neg (show ¬(s ≥ 85) by intro hge; have h85 : (85 : ℚ) ≤ s := hge; linarith)]
  · intro hp
    simp only [GeoMatcher.match_territory, hcat, Bool.not_true, Bool.false_eq_true, if_false,
      if_pos hp]
    constructor <;> · split <;> rfl
  · intro hp hc
    simp only [GeoMatcher.match_territory, hcat, Bool.not_true, Bool.false_eq_true, if_false,
      if_pos hp, if_pos hc]
    simp
  · by_cases hp : normalize_text pv ∈ m.provinces
    · by_cases hc : normalize_text ct ∈ m.cantonsOf (normalize_text pv)
      · have hR : m.match_territory pv ct 85 =
            ⟨some (normalize_text pv), some (normalize_text ct), 100, 100, "exact"⟩ := by
          simp only [GeoMatcher.match_territory, hcat, Bool.not_true, Bool.false_eq_true,
            if_false, if_pos hp, if_pos hc]
          simp
        rw [hR]
        intro _
        exact ⟨⟨fun _ => ⟨hp, hc⟩, fun _ => rfl⟩, Or.inl rfl⟩
      · cases hext : extractOne (normalize_text ct) (m.cantonsOf (normalize_text pv)) with
        | none =>
          have hR : m.match_territory pv ct 85 =
              ⟨some (normalize_text pv), none, 100, 0, "failed_canton"⟩ := by
            simp only [GeoMatcher.match_territory, hcat, Bool.not_true, Bool.false_eq_true,
              if_false, if_pos hp, if_neg hc, hext]
          rw [hR]
          intro h
          simp at h
        | some p =>
          obtain ⟨bc, sc⟩ := p
          obtain ⟨hbmem, hbscore⟩ := extractOne_spec _ _ _ _ hext
          by_cases hacc : sc ≥ 85
          · have hsc100 : sc ≠ 100 := by
              intro h100
              rw [h100] at hbscore
              have heq : normalize_text ct = bc := (fuzzScore_eq_100_iff _ _).mp hbscore.symm
              exact hc (heq ▸ hbmem)
            have hR : m.match_territory pv ct 85 =
                ⟨some (normalize_text pv), some bc, 100, sc, "fuzzy"⟩ := by
              simp only [GeoMatcher.match_territory, hcat, Bool.not_true, Bool.false_eq_true,
                if_false, if_pos hp, if_neg hc, hext, if_pos hacc]
              simp [hsc100]
            rw [hR]
            intro _
            refine ⟨⟨by intro habs; simp at habs, ?_⟩, Or.inr rfl⟩
            rintro ⟨_, hc2⟩
            exact absurd hc2 hc
          · have hR : m.match_territory pv ct 85 =
                ⟨some (normalize_text pv), none, 100, 0, "failed_canton"⟩ := by
              simp only [GeoMatcher.match_territory, hcat, Bool.not_true, Bool.false_eq_true,
                if_false, if_pos hp, if_neg hc, hext, if_neg hacc]
            rw [hR]
            intro h
            simp at h
    · cases hext : extractOne (normalize_text pv) m.provinces with
      | none =>
        have hR : m.match_territory pv ct 85 = ⟨none, none, 0, 0, "failed_prov"⟩ := by
          simp only [GeoMatcher.match_territory, hcat, Bool.not_true, Bool.false_eq_true,
            if_false, if_neg hp, hext]
        rw [hR]
        intro h
        simp at h
      | some p =>
        obtain ⟨bp, sp⟩ := p
        obtain ⟨hpmem, hpscore⟩ := extractOne_spec _ _ _ _ hext
        by_cases hacc : sp ≥ 85
        · have hsp100 : sp ≠ 100 := by
            intro h100
            rw [h100] at hpscore
            have heq : normalize_text pv = bp := (fuzzScore_eq_100_iff _ _).mp hpscore.symm
            exact hp (heq ▸ hpmem)
          by_cases hc : normalize_text ct ∈ m.cantonsOf bp
          · have hR : m.match_territory pv ct 85 =
                ⟨some bp, some (normalize_text ct), sp, 100, "fuzzy"⟩ := by
              simp only [GeoMatcher.match_territory, hcat, Bool.not_true, Bool.false_eq_true,
                if_false, if_neg hp, hext, if_pos hacc, if_pos hc]
              simp [hsp100]
            rw [hR]
            intro _
            refine ⟨⟨by intro habs; simp at habs, ?_⟩, Or.inr rfl⟩
            rintro ⟨hp2, _⟩
            exact absurd hp2 hp
          · cases hext2 : extractOne (normalize_text ct) (m.cantonsOf bp) with
            | none =>
              have hR : m.match_territory pv ct 85 =
                  ⟨some bp, none, sp, 0, "failed_canton"⟩ := by
                simp only [GeoMatcher.match_territory, hcat, Bool.not_true, Bool.false_eq_true,
                  if_false, if_neg hp, hext, if_pos hacc, if_neg hc, hext2]
              rw [hR]
              intro h
              simp at h
            | some p2 =>
              obtain ⟨bc2, sc2⟩ := p2
              by_cases hacc2 : sc2 ≥ 85
              · have hR : m.match_territory pv ct 85 =
                    ⟨some bp, some bc2, sp, sc2, "fuzzy"⟩ := by
                  simp only [GeoMatcher.match_territory, hcat, Bool.not_true,
                    Bool.false_eq_true, if_false, if_neg hp, hext, if_pos hacc, if_neg hc,
                    hext2, if_pos hacc2]
                  simp [hsp100]
                rw [hR]
                intro _
                refine ⟨⟨by intro habs; simp at habs, ?_⟩, Or.inr rfl⟩
                rintro ⟨hp2, _⟩
                exact absurd hp2 hp
              · have hR : m.match_territory pv ct 85 =
                    ⟨some bp, none, sp, 0, "failed_canton"⟩ := by
                  simp only [GeoMatcher.match_territory, hcat, Bool.not_true,
                    Bool.false_eq_true, if_false, if_neg hp, hext, if_pos hacc, if_neg hc,
                    hext2, if_neg hacc2]
                rw [hR]
                intro h
                simp at h
        · have hR : m.match_territory pv ct 85 = ⟨none, none, 0, 0, "failed_prov"⟩ := by
            simp only [GeoMatcher.match_territory, hcat, Bool.not_true, Bool.false_eq_true,
              if_false, if_neg hp, hext, if_neg hacc]
          rw [hR]
          intro h
          simp at h


theorem match_territory_spec_witness :
    GeoMatcher.match_territory
      ⟨true, ["pichincha"], [("pichincha", ["quito"])], [("pichincha", "quito")]⟩
      "Pichíncha" "QUITO" 85 =
      ⟨some "pichincha", some "quito", 100, 100, "exact"⟩ := by
  have hnp : normalize_text "Pichíncha" = "pichincha" := by
    simp [normalize_text, Uni.asciiFold, Uni.asciiFoldChar, Uni.accentTable, Uni.pyStrip,
      Uni.pyIsSpace, Uni.pyLowerChar, Uni.splitWs, Uni.joinSp]
  have hnc : normalize_text "QUITO" = "quito" := by
    simp [normalize_text, Uni.asciiFold, Uni.asciiFoldChar, Uni.accentTable, Uni.pyStrip,
      Uni.pyIsSpace, Uni.pyLowerChar, Uni.splitWs, Uni.joinSp]
  have h := (match_territory_spec
    ⟨true, ["pichincha"], [("pichincha", ["quito"])], [("pichincha", "quito")]⟩
    "Pichíncha" "QUITO" rfl).2.2.2.1
    (by rw [hnp]; simp)
    (by rw [hnp, hnc]; simp [GeoMatcher.cantonsOf])
  rw [h, hnp, hnc]

end Geo

namespace Uni

theorem mem_takeWhile_sat {p : Char → Bool} :
    ∀ {l : List Char} {c : Char}, c ∈ l.takeWhile p → p c = true := by
  intro l
  induction l with
  | nil => intro c h; simp [List.takeWhile] at h
  | cons a l ih =>
    intro c h
    rw [List.takeWhile_cons] at h
    split at h
    · rcases List.mem_cons.mp h with rfl | h1
      · assumption
      · exact ih h1
    · exact absurd h (List.not_mem_nil c)

theorem takeWhile_eq_self_of_all {p : Char → Bool} :
    ∀ {l : List Char}, (∀ c ∈ l, p c = true) → l.takeWhile p = l := by
  intro l
  induction l with
  | nil => intro _; rfl
  | cons a l ih =>
    intro h
    rw [List.takeWhile_cons, if_pos (h a (List.mem_cons_self a l))]
    rw [ih fun c hc => h c (List.mem_cons_of_mem a hc)]

theorem dropWhile_eq_nil_of_all {p : Char → Bool} :
    ∀ {l : List Char}, (∀ c ∈ l, p c = true) → l.dropWhile p = [] := by
  intro l
  induction l with
  | nil => intro _; rfl
  | cons a l ih =>
    intro h
    rw [List.dropWhile_cons, if_pos (h a (List.mem_cons_self a l))]
    exact ih fun c hc => h c (List.mem_cons_of_mem a hc)

theorem takeWhile_append_of_all {p : Char → Bool} :
    ∀ {l z : List Char}, (∀ c ∈ l, p c = true) → (l ++ z).takeWhile p = l ++ z.takeWhile p := by
  intro l z
  induction l with
  | nil => intro _; rfl
  | cons a l ih =>
    intro h
    rw [List.cons_append, List.takeWhile_cons, if_pos (h a (List.mem_cons_self a l)),
      ih fun c hc => h c (List.mem_cons_of_mem a hc), List.cons_append]

theorem dropWhile_append_of_all {p : Char → Bool} :
    ∀ {l z : List Char}, (∀ c ∈ l, p c = true) → (l ++ z).dropWhile p = z.dropWhile p := by
  intro l z
  induction l with
  | nil => intro _; rfl
  | cons a l ih =>
    intro h
    rw [List.cons_append, List.dropWhile_cons, if_pos (h a (List.mem_cons_self a l))]
    exact ih fun c hc => h c (List.mem_cons_of_mem a hc)

theorem asciiFoldChar_ascii {c : Char} (h : c.toNat < 128) : asciiFoldChar c = [c] := by
  rw [asciiFoldChar, if_pos h]

theorem ascii_of_mem_asciiFoldChar {c d : Char} (hd : d ∈ asciiFoldChar c) : d.toNat < 128 := by
  rw [asciiFoldChar] at hd
  split at hd
  · rename_i h
    rw [List.mem_singleton] at hd
    exact hd ▸ h
  · split at hd
    · rename_i p hp
      have hmem := List.mem_of_find?_eq_some hp
      have htab : ∀ q ∈ accentTable, q.2.toNat < 128 := by decide
      rw [List.mem_singleton] at hd
      exact hd ▸ htab p hmem
    · exact absurd hd (List.not_mem_nil d)

theorem asciiFold_fixed : ∀ {l : List Char}, (∀ c ∈ l, c.toNat < 128) →
    (l.map asciiFoldChar).flatten = l := by
  intro l
  induction l with
  | nil => intro _; rfl
  | cons a l ih =>
    intro h
    rw [List.map_cons, List.flatten_cons, asciiFoldChar_ascii (h a (List.mem_cons_self a l)),
      ih fun c hc => h c (List.mem_cons_of_mem a hc)]
    rfl

theorem ascii_of_mem_asciiFold {l : List Char} {d : Char}
    (hd : d ∈ (l.map asciiFoldChar).flatten) : d.toNat < 128 := by
  rw [List.mem_flatten] at hd
  obtain ⟨w, hw, hdw⟩ := hd
  obtain ⟨c, _, rfl⟩ := List.mem_map.mp hw
  exact ascii_of_mem_asciiFoldChar hdw

theorem toNat_ofNat_lt {n : Nat} (h : n < 55296) : (Char.ofNat n).toNat = n := by
  have hv : n.isValidChar := Or.inl h
  rw [Char.ofNat, dif_pos hv]
  rfl

theorem pyLowerChar_toNat (c : Char) :
    (pyLowerChar c).toNat =
      if 65 ≤ c.toNat ∧ c.toNat ≤ 90 then c.toNat + 32 else c.toNat := by
  rw [pyLowerChar]
  split
  · rename_i h
    exact toNat_ofNat_lt (by omega)
  · rfl

theorem pyLowerChar_def (c : Char) :
    pyLowerChar c = if 65 ≤ c.toNat ∧ c.toNat ≤ 90 then Char.ofNat (c.toNat + 32) else c :=
  rfl

theorem pyLowerChar_idem (c : Char) : pyLowerChar (pyLowerChar c) = pyLowerChar c := by
  rw [pyLowerChar_def (pyLowerChar c)]
  split
  · rename_i hcond
    exfalso
    rw [pyLowerChar_toNat] at hcond
    by_cases hc : 65 ≤ c.toNat ∧ c.toNat ≤ 90
    · rw [if_pos hc] at hcond; omega
    · rw [if_neg hc] at hcond; omega
  · rfl

theorem pyLowerChar_ascii {c : Char} (h : c.toNat < 128) : (pyLowerChar c).toNat < 128 := by
  rw [pyLowerChar_toNat]
  split <;> omega

theorem spaceChar_toNat : spaceChar.toNat = 32 :=
  toNat_ofNat_lt (by omega)

theorem pyIsSpace_spaceChar : pyIsSpace spaceChar = true := by
  rw [pyIsSpace, spaceChar_toNat]
  decide

theorem pyLowerChar_spaceChar : pyLowerChar spaceChar = spaceChar := by
  rw [pyLowerChar]
  rw [if_neg (by rw [spaceChar_toNat]; omega)]

theorem spaceChar_ascii : spaceChar.toNat < 128 := by
  rw [spaceChar_toNat]; omega

end Uni

namespace Uni

theorem splitWs_nil : splitWs [] = [] := by
  simp [splitWs]

theorem splitWs_cons_space {c : Char} {cs : List Char} (h : pyIsSpace c = true) :
    splitWs (c :: cs) = splitWs cs := by
  simp only [splitWs, if_pos h]

theorem bool_ne_true {b : Bool} (h : b = false) : ¬(b = true) := by
  rw [h]
  decide

theorem splitWs_cons_word {c : Char} {cs : List Char} (h : pyIsSpace c = false) :
    splitWs (c :: cs) =
      (c :: cs.takeWhile (fun d => !pyIsSpace d)) ::
        splitWs (cs.dropWhile (fun d => !pyIsSpace d)) := by
  simp only [splitWs, if_neg (bool_ne_true h)]

theorem length_dropWhile_le (p : Char → Bool) (l : List Char) :
    (l.dropWhile p).length ≤ l.length :=
  (List.dropWhile_sublist p).length_le

theorem splitWs_all_space : ∀ {l : List Char}, (∀ c ∈ l, pyIsSpace c = true) →
    splitWs l = [] := by
  intro l
  induction l with
  | nil => intro _; exact splitWs_nil
  | cons c cs ih =>
    intro h
    rw [splitWs_cons_space (h c (List.mem_cons_self c cs))]
    exact ih fun d hd => h d (List.mem_cons_of_mem c hd)

theorem takeWhile_word_append_spaces {sp : List Char}
    (hsp : ∀ c ∈ sp, pyIsSpace c = true) :
    ∀ cs : List Char,
      (cs ++ sp).takeWhile (fun d => !pyIsSpace d) =
        cs.takeWhile (fun d => !pyIsSpace d) := by
  intro cs
  induction cs with
  | nil =>
    rw [List.nil_append]
    cases sp with
    | nil => rfl
    | cons d sp' =>
      rw [List.takeWhile_cons]
      simp [hsp d (List.mem_cons_self d sp')]
  | cons c cs ih =>
    rw [List.cons_append, List.takeWhile_cons, List.takeWhile_cons, ih]

theorem dropWhile_word_append_spaces {sp : List Char}
    (hsp : ∀ c ∈ sp, pyIsSpace c = true) :
    ∀ cs : List Char,
      (cs ++ sp).dropWhile (fun d => !pyIsSpace d) =
        cs.dropWhile (fun d => !pyIsSpace d) ++ sp := by
  intro cs
  induction cs with
  | nil =>
    rw [List.nil_append]
    cases sp with
    | nil => rfl
    | cons d sp' =>
      rw [List.dropWhile_cons]
      simp [hsp d (List.mem_cons_self d sp')]
  | cons c cs ih =>
    rw [List.cons_append, List.dropWhile_cons, List.dropWhile_cons, ih]
    cases h : pyIsSpace c with
    | true => simp
    | false => simp

theorem splitWs_append_spaces_fuel (sp : List Char)
    (hsp : ∀ c ∈ sp, pyIsSpace c = true) :
    ∀ (n : Nat) (cs : List Char), cs.length ≤ n → splitWs (cs ++ sp) = splitWs cs := by
  intro n
  induction n with
  | zero =>
    intro cs hcs
    have hnil : cs = [] := List.eq_nil_of_length_eq_zero (by omega)
    subst hnil
    rw [List.nil_append, splitWs_nil]
    exact splitWs_all_space hsp
  | succ n ih =>
    intro cs hcs
    cases cs with
    | nil =>
      rw [List.nil_append, splitWs_nil]
      exact splitWs_all_space hsp
    | cons c cs' =>
      rw [List.cons_append]
      cases h : pyIsSpace c with
      | true =>
        rw [splitWs_cons_space h, splitWs_cons_space h]
        exact ih cs' (by simp only [List.length_cons] at hcs; omega)
      | false =>
        rw [splitWs_cons_word h, splitWs_cons_word h]
        rw [takeWhile_word_append_spaces hsp cs', dropWhile_word_append_spaces hsp cs']
        rw [ih (cs'.dropWhile fun d => !pyIsSpace d)
          (by
            have := length_dropWhile_le (fun d => !pyIsSpace d) cs'
            simp only [List.length_cons] at hcs
            omega)]

theorem splitWs_append_spaces (sp : List Char) (hsp : ∀ c ∈ sp, pyIsSpace c = true)
    (cs : List Char) : splitWs (cs ++ sp) = splitWs cs :=
  splitWs_append_spaces_fuel sp hsp cs.length cs (Nat.le_refl _)

theorem splitWs_dropWhile_spaces : (l : List Char) →
    splitWs (l.dropWhile pyIsSpace) = splitWs l
  | [] => rfl
  | c :: cs => by
    rw [List.dropWhile_cons]
    cases h : pyIsSpace c with
    | true =>
      rw [if_pos rfl, splitWs_cons_space h]
      exact splitWs_dropWhile_spaces cs
    | false => rw [if_neg (by simp)]

theorem splitWs_strip_trailing (m : List Char) :
    splitWs ((m.reverse.dropWhile pyIsSpace).reverse) = splitWs m := by
  have hdecomp : (m.reverse.dropWhile pyIsSpace).reverse ++
      (m.reverse.takeWhile pyIsSpace).reverse = m := by
    rw [← List.reverse_append, List.takeWhile_append_dropWhile, List.reverse_reverse]
  have hsp : ∀ c ∈ (m.reverse.takeWhile pyIsSpace).reverse, pyIsSpace c = true := by
    intro c hc
    rw [List.mem_reverse] at hc
    exact mem_takeWhile_sat hc
  calc splitWs ((m.reverse.dropWhile pyIsSpace).reverse)
      = splitWs ((m.reverse.dropWhile pyIsSpace).reverse ++
          (m.reverse.takeWhile pyIsSpace).reverse) :=
        (splitWs_append_spaces _ hsp _).symm
    _ = splitWs m := by rw [hdecomp]

theorem splitWs_pyStrip (l : List Char) : splitWs (pyStrip l) = splitWs l := by
  rw [pyStrip, splitWs_strip_trailing (l.dropWhile pyIsSpace)]
  exact splitWs_dropWhile_spaces l

theorem mem_of_mem_pyStrip {l : List Char} {c : Char} (h : c ∈ pyStrip l) : c ∈ l := by
  rw [pyStrip, List.mem_reverse] at h
  have h1 := (List.dropWhile_sublist (l := (l.dropWhile pyIsSpace).reverse) pyIsSpace).subset h
  rw [List.mem_reverse] at h1
  exact (List.dropWhile_sublist (l := l) pyIsSpace).subset h1

theorem splitWs_good_fuel :
    ∀ (n : Nat) (l : List Char), l.length ≤ n →
      ∀ w ∈ splitWs l, w ≠ [] ∧ ∀ c ∈ w, pyIsSpace c = false := by
  intro n
  induction n with
  | zero =>
    intro l hl
    have hnil : l = [] := List.eq_nil_of_length_eq_zero (by omega)
    subst hnil
    rw [splitWs_nil]
    intro w hw
    exact absurd hw (List.not_mem_nil w)
  | succ n ih =>
    intro l hl
    cases l with
    | nil =>
      rw [splitWs_nil]
      intro w hw
      exact absurd hw (List.not_mem_nil w)
    | cons c cs =>
      cases h : pyIsSpace c with
      | true =>
        rw [splitWs_cons_space h]
        exact ih cs (by simp only [List.length_cons] at hl; omega)
      | false =>
        rw [splitWs_cons_word h]
        intro w hw
        rcases List.mem_cons.mp hw with hw1 | hw1
        · subst hw1
          refine ⟨by simp, ?_⟩
          intro d hd
          rcases List.mem_cons.mp hd with rfl | hd1
          · exact h
          · have hq := mem_takeWhile_sat hd1
            simpa using hq
        · exact ih (cs.dropWhile fun d => !pyIsSpace d)
            (by
              have := length_dropWhile_le (fun d => !pyIsSpace d) cs
              simp only [List.length_cons] at hl
              omega) w hw1

theorem splitWs_good (l : List Char) :
    ∀ w ∈ splitWs l, w ≠ [] ∧ ∀ c ∈ w, pyIsSpace c = false :=
  splitWs_good_fuel l.length l (Nat.le_refl _)

theorem splitWs_chars_fuel :
    ∀ (n : Nat) (l : List Char), l.length ≤ n → ∀ w ∈ splitWs l, ∀ c ∈ w, c ∈ l := by
  intro n
  induction n with
  | zero =>
    intro l hl
    have hnil : l = [] := List.eq_nil_of_length_eq_zero (by omega)
    subst hnil
    rw [splitWs_nil]
    intro w hw
    exact absurd hw (List.not_mem_nil w)
  | succ n ih =>
    intro l hl
    cases l with
    | nil =>
      rw [splitWs_nil]
      intro w hw
      exact absurd hw (List.not_mem_nil w)
    | cons c cs =>
      cases h : pyIsSpace c with
      | true =>
        rw [splitWs_cons_space h]
        intro w hw d hd
        exact List.mem_cons_of_mem c
          (ih cs (by simp only [List.length_cons] at hl; omega) w hw d hd)
      | false =>
        rw [splitWs_cons_word h]
        intro w hw d hd
        rcases List.mem_cons.mp hw with hw1 | hw1
        · subst hw1
          rcases List.mem_cons.mp hd with rfl | hd1
          · exact List.mem_cons_self d cs
          · exact List.mem_cons_of_mem c
              ((List.takeWhile_sublist (l := cs) (fun e => !pyIsSpace e)).subset hd1)
        · have hmem := ih (cs.dropWhile fun e => !pyIsSpace e)
            (by
              have := length_dropWhile_le (fun e => !pyIsSpace e) cs
              simp only [List.length_cons] at hl
              omega) w hw1 d hd
          exact List.mem_cons_of_mem c
            ((List.dropWhile_sublist (l := cs) (fun e => !pyIsSpace e)).subset hmem)

theorem splitWs_chars (l : List Char) : ∀ w ∈ splitWs l, ∀ c ∈ w, c ∈ l :=
  splitWs_chars_fuel l.length l (Nat.le_refl _)

theorem joinSp_chars : (ws : List (List Char)) →
    ∀ c ∈ joinSp ws, c = spaceChar ∨ ∃ w ∈ ws, c ∈ w
  | [] => by simp [joinSp]
  | [w] => by
    intro c hc
    rw [show joinSp [w] = w from rfl] at hc
    exact Or.inr ⟨w, List.mem_cons_self w [], hc⟩
  | w :: v :: ws => by
    intro c hc
    rw [show joinSp (w :: v :: ws) = w ++ spaceChar :: joinSp (v :: ws) from rfl] at hc
    rcases List.mem_append.mp hc with h1 | h1
    · exact Or.inr ⟨w, List.mem_cons_self w (v :: ws), h1⟩
    · rcases List.mem_cons.mp h1 with rfl | h2
      · exact Or.inl rfl
      · rcases joinSp_chars (v :: ws) c h2 with h3 | ⟨u, hu, hcu⟩
        · exact Or.inl h3
        · exact Or.inr ⟨u, List.mem_cons_of_mem w hu, hcu⟩

theorem splitWs_joinSp : (ws : List (List Char)) →
    (∀ w ∈ ws, w ≠ [] ∧ ∀ c ∈ w, pyIsSpace c = false) → splitWs (joinSp ws) = ws
  | [], _ => splitWs_nil
  | [w], h => by
    obtain ⟨hne, hc⟩ := h w (List.mem_cons_self w [])
    cases w with
    | nil => exact absurd rfl hne
    | cons c w' =>
      rw [show joinSp [c :: w'] = c :: w' from rfl]
      have hcsp : pyIsSpace c = false := hc c (List.mem_cons_self c w')
      rw [splitWs_cons_word hcsp]
      rw [takeWhile_eq_self_of_all fun d hd => by simp [hc d (List.mem_cons_of_mem c hd)],
        dropWhile_eq_nil_of_all fun d hd => by simp [hc d (List.mem_cons_of_mem c hd)]]
      rw [splitWs_nil]
  | w :: v :: ws, h => by
    obtain ⟨hne, hc⟩ := h w (List.mem_cons_self w (v :: ws))
    cases w with
    | nil => exact absurd rfl hne
    | cons c w' =>
      rw [show joinSp ((c :: w') :: v :: ws) = (c :: w') ++ spaceChar :: joinSp (v :: ws)
        from rfl, List.cons_append]
      have hcsp : pyIsSpace c = false := hc c (List.mem_cons_self c w')
      rw [splitWs_cons_word hcsp]
      have hallw' : ∀ d ∈ w', (fun e => !pyIsSpace e) d = true :=
        fun d hd => by simp [hc d (List.mem_cons_of_mem c hd)]
      rw [takeWhile_append_of_all hallw', dropWhile_append_of_all hallw']
      rw [List.takeWhile_cons, if_neg (by simp [pyIsSpace_spaceChar]), List.append_nil]
      rw [List.dropWhile_cons, if_neg (by simp [pyIsSpace_spaceChar])]
      rw [splitWs_cons_space pyIsSpace_spaceChar]
      rw [splitWs_joinSp (v :: ws) fun u hu => h u (List.mem_cons_of_mem (c :: w') hu)]

end Uni

namespace Geo

open Uni

theorem normalize_text_def (u : String) :
    normalize_text u =
      String.mk (joinSp (splitWs (pyStrip ((asciiFold u).data.map pyLowerChar)))) :=
  rfl

/-- Claim C9: `GeoMatcher.normalize_text` is idempotent — its output is
already ASCII, lowercase, edge-trimmed, with internal whitespace runs
collapsed, so applying it a second time changes nothing. -/
theorem normalize_text_idempotent (s : String) :
    normalize_text (normalize_text s) = normalize_text s := by
  rw [normalize_text_def s]
  rw [normalize_text_def (String.mk (joinSp (splitWs (pyStrip
    ((asciiFold s).data.map pyLowerChar)))))]
  have hchar : ∀ c ∈ joinSp (splitWs (pyStrip ((asciiFold s).data.map pyLowerChar))),
      c.toNat < 128 ∧ pyLowerChar c = c := by
    intro c hc
    rcases joinSp_chars _ c hc with rfl | ⟨w, hw, hcw⟩
    · exact ⟨spaceChar_ascii, pyLowerChar_spaceChar⟩
    · have hc_strip : c ∈ pyStrip ((asciiFold s).data.map pyLowerChar) :=
        splitWs_chars _ w hw c hcw
      have hc_inner : c ∈ (asciiFold s).data.map pyLowerChar := mem_of_mem_pyStrip hc_strip
      obtain ⟨d, hd, rfl⟩ := List.mem_map.mp hc_inner
      have hd_ascii : d.toNat < 128 := by
        have hdata : (asciiFold s).data = (s.data.map asciiFoldChar).flatten := rfl
        rw [hdata] at hd
        exact ascii_of_mem_asciiFold hd
      exact ⟨pyLowerChar_ascii hd_ascii, pyLowerChar_idem d⟩
  have h1 : (asciiFold (String.mk (joinSp (splitWs (pyStrip
      ((asciiFold s).data.map pyLowerChar)))))).data =
        joinSp (splitWs (pyStrip ((asciiFold s).data.map pyLowerChar))) := by
    have hdata : (asciiFold (String.mk (joinSp (splitWs (pyStrip
        ((asciiFold s).data.map pyLowerChar)))))).data =
          ((joinSp (splitWs (pyStrip ((asciiFold s).data.map pyLowerChar)))).map
            asciiFoldChar).flatten := rfl
    rw [hdata]
    exact asciiFold_fixed fun c hc => (hchar c hc).1
  rw [h1]
  have h2 : (joinSp (splitWs (pyStrip ((asciiFold s).data.map pyLowerChar)))).map
      pyLowerChar = joinSp (splitWs (pyStrip ((asciiFold s).data.map pyLowerChar))) :=
    (List.map_congr_left fun c hc => (hchar c hc).2).trans
      (List.map_id _)
  rw [h2]
  rw [splitWs_pyStrip]
  rw [splitWs_joinSp _ (splitWs_good _)]

end Geo
